import Mathlib

/-!
Verification of the dependency-tree core of the `woolly` package checker.

The development shallowly embeds the recursive dependency-tree builder
(`build_tree` in `src/woolly/commands/check.py`), its statistics
aggregation (`_compute_stats_from_visited`, same file), the data
contracts of `src/woolly/languages/base.py`, the registry-response
handling of `src/woolly/languages/rust.py`, and the shell-glob matching
(`fnmatch.fnmatch`) the tree builder uses for `--exclude` patterns.

Python machine types are modelled as follows: `str` becomes `String`,
`int` counters become `Nat` (they are only ever incremented from 0),
`bool` becomes `Bool`, `Optional[T]` becomes `Option T`, exceptions
become `Except`, and the insertion-ordered Python `dict` used for the
`visited` map becomes an insertion-ordered association list.
-/

namespace Woolly

/-- Information about a package from an upstream registry, as the
consumers of the record use it (`rust.py`, `python.py`, `check.py` and
the unit tests all construct or read a `license` attribute; the class
body in `base.py` lines 36-43 omits that field, which claim C9
examines via `packageInfoFieldsBase` below). -/
structure PackageInfo where
  name : String
  latest_version : String
  description : Option String
  homepage : Option String
  repository : Option String
  license : Option String
deriving DecidableEq, Repr

/-- The field names that actually appear in the class body of
`PackageInfo` in `src/woolly/languages/base.py` (lines 36-43), in
source order. -/
def packageInfoFieldsBase : List String :=
  ["name", "latest_version", "description", "homepage", "repository"]

/-- The attribute of the package-info record that `build_tree` reads at
`src/woolly/commands/check.py` line 170 (`pkg_info.license`), and that
`tests/unit/test_languages/test_base.py` asserts to exist. -/
def packageInfoLicenseAttr : String := "license"

/-- A declared dependency edge (`Dependency` in `base.py`). -/
structure Dependency where
  name : String
  version_requirement : String
  optional : Bool
  kind : String
deriving DecidableEq, Repr

/-- Status of a package in the distribution repositories
(`FedoraPackageStatus` in `base.py`). -/
structure FedoraPackageStatus where
  is_packaged : Bool
  versions : List String
  package_names : List String
deriving DecidableEq, Repr

/-- One value of the `visited` dict built by `build_tree`: the Python
tuple `(is_packaged, version, is_optional)` (`check.py` docstring,
line 107). -/
structure VisitedEntry where
  is_packaged : Bool
  version : Option String
  is_optional : Bool
deriving DecidableEq, Repr

/-- The `visited` dict, `{package_name: (is_packaged, version,
is_optional)}`, embedded as an insertion-ordered association list
(Python dicts preserve insertion order, which
`_compute_stats_from_visited` iterates in). -/
abbrev Visited := List (String × VisitedEntry)

/-- Lookup in the visited map: Python `visited[package_name]` /
`package_name in visited`. -/
def Visited.find : Visited → String → Option VisitedEntry
  | [], _ => none
  | (k', e) :: rest, k => if k' = k then some e else Visited.find rest k

/-- Assignment `visited[k] = e` on a Python dict: overwrite in place if
the key exists, otherwise append at the end. -/
def Visited.insert : Visited → String → VisitedEntry → Visited
  | [], k, e => [(k, e)]
  | (k', e') :: rest, k, e =>
      if k' = k then (k', e) :: rest else (k', e') :: Visited.insert rest k e

/-- The tree returned by `build_tree`: Rich `Tree` objects carry a label
string and an ordered child list; short-circuited outcomes are returned
as plain strings and appended as childless nodes (`check.py` lines
238-245). -/
inductive TreeNode where
  | leaf (text : String)
  | node (label : String) (children : List TreeNode)
deriving Repr

/-- All nodes of the tree at path-length `d` from the root (`d` edges
below the root). -/
def nodesAtDepth : TreeNode → Nat → List TreeNode
  | t, 0 => [t]
  | .leaf _, _ + 1 => []
  | .node _ children, d + 1 => children.flatMap (fun c => nodesAtDepth c d)

/-! ### Shell-glob matching (`fnmatch.fnmatch`)

`build_tree` prunes dependency edges whose name matches one of the
`--exclude` glob patterns (`check.py` lines 219-224) with Python
`fnmatch.fnmatch`, i.e. shell-glob semantics: `*` matches any run of
characters, `?` any single character, `[seq]` a character class with
ranges, `[!seq]` its negation; a `[` with no closing `]` is literal, and
on POSIX the case normalisation is the identity. The matcher below
translates the pattern to a token list and matches with the standard
backtracking interpretation of `*`; the `Nat` counters are structural
bounds that are set large enough to never be hit (each step consumes at
least one unit), keeping the functions kernel-computable. -/

/-- Membership of a character in the body of a glob character class
`[...]`, interpreting `a-b` as a code-point range as the regex produced
by `fnmatch.translate` does, with a trailing `-` literal. -/
def classMatch : List Char → Char → Bool
  | [], _ => false
  | a :: '-' :: b :: rest, c => (decide (a ≤ c) && decide (c ≤ b)) || classMatch rest c
  | a :: rest, c => (a = c) || classMatch rest c

/-- Split the text following a `[` into the optional negation flag, the
class body, and the rest of the pattern after the closing `]`; `none`
when no closing `]` exists (in which case `fnmatch` treats the `[` as a
literal character). A `]` directly after the opening (or after `!`) is
a literal member of the class. -/
def splitClass (ps : List Char) : Option (Bool × List Char × List Char) :=
  let (neg, ps1) := match ps with
    | '!' :: t => (true, t)
    | _ => (false, ps)
  match ps1 with
  | ']' :: t =>
      let stuff := t.takeWhile (fun c => c ≠ ']')
      match t.dropWhile (fun c => c ≠ ']') with
      | ']' :: r => some (neg, ']' :: stuff, r)
      | _ => none
  | _ =>
      let stuff := ps1.takeWhile (fun c => c ≠ ']')
      match ps1.dropWhile (fun c => c ≠ ']') with
      | ']' :: r => some (neg, stuff, r)
      | _ => none

/-- One compiled element of a glob pattern. -/
inductive GlobToken where
  | star
  | anyChar
  | lit (c : Char)
  | cls (negated : Bool) (body : List Char)
deriving DecidableEq, Repr

/-- Tokenise a glob pattern; the `Nat` argument only bounds the
recursion (each step consumes at least one pattern character, so
`parseGlob` below supplies enough for the bound never to bite). -/
def parseGlobAux : Nat → List Char → List GlobToken
  | _, [] => []
  | 0, rest => rest.map GlobToken.lit
  | n + 1, '*' :: ps => .star :: parseGlobAux n ps
  | n + 1, '?' :: ps => .anyChar :: parseGlobAux n ps
  | n + 1, '[' :: ps =>
      match splitClass ps with
      | some (neg, body, rest) => .cls neg body :: parseGlobAux n rest
      | none => .lit '[' :: parseGlobAux n ps
  | n + 1, c :: ps => .lit c :: parseGlobAux n ps

def parseGlob (pat : List Char) : List GlobToken :=
  parseGlobAux pat.length pat

/-- Match a tokenised glob against a string, `*` by backtracking. The
`Nat` argument only bounds the recursion; every step decreases
`tokens.length + s.length`, and the only way to exhaust a bound of
`tokens.length + s.length + 1` is with both lists empty, where the
fallback agrees with the empty-empty case. -/
def globMatchAux : Nat → List GlobToken → List Char → Bool
  | 0, ts, s => ts.isEmpty && s.isEmpty
  | _ + 1, [], s => s.isEmpty
  | n + 1, .star :: ts, s =>
      globMatchAux n ts s ||
        (match s with
         | [] => false
         | _ :: cs => globMatchAux n (.star :: ts) cs)
  | n + 1, .anyChar :: ts, s =>
      match s with
      | [] => false
      | _ :: cs => globMatchAux n ts cs
  | n + 1, .lit c :: ts, s =>
      match s with
      | [] => false
      | c' :: cs => (c = c') && globMatchAux n ts cs
  | n + 1, .cls neg body :: ts, s =>
      match s with
      | [] => false
      | c :: cs => (classMatch body c != neg) && globMatchAux n ts cs

/-- Python `fnmatch.fnmatch(name, pat)` on POSIX. -/
def fnmatch (name : String) (pat : String) : Bool :=
  let ts := parseGlob pat.data
  globMatchAux (ts.length + name.data.length + 1) ts name.data

/-- The exclusion test of `check.py` lines 221-222:
`any(fnmatch.fnmatch(dep_name, pattern) for pattern in exclude_patterns)`
(with an empty/absent pattern list short-circuiting to no exclusion). -/
def matchesAny (name : String) (pats : List String) : Bool :=
  pats.any (fun pat => fnmatch name pat)

/-! ### Statistics aggregation (`_compute_stats_from_visited`) -/

/-- Statistics collected from the dependency-tree analysis (`TreeStats`
in `check.py` lines 35-52; the dev/build counters are filled in by the
`check` command after the traversal and stay at their default 0 in the
aggregation itself). -/
structure TreeStats where
  total : Nat
  packaged : Nat
  missing : Nat
  missing_list : List String
  packaged_list : List String
  optional_total : Nat
  optional_packaged : Nat
  optional_missing : Nat
  optional_missing_list : List String
  dev_total : Nat
  dev_packaged : Nat
  dev_missing : Nat
  build_total : Nat
  build_packaged : Nat
  build_missing : Nat
deriving DecidableEq, Repr

/-- A fresh `TreeStats()` with all pydantic defaults. -/
def TreeStats.empty : TreeStats :=
  ⟨0, 0, 0, [], [], 0, 0, 0, [], 0, 0, 0, 0, 0, 0⟩

/-- The body of the loop of `_compute_stats_from_visited` (`check.py`
lines 64-78) for one `(pkg_name, (is_packaged, _version, is_optional))`
item of the visited dict. -/
def stats_step (stats : TreeStats) (kv : String × VisitedEntry) : TreeStats :=
  let pkg_name := kv.1
  let e := kv.2
  let stats := { stats with total := stats.total + 1 }
  let stats :=
    if e.is_optional then { stats with optional_total := stats.optional_total + 1 }
    else stats
  if e.is_packaged then
    let stats := { stats with
      packaged := stats.packaged + 1
      packaged_list := stats.packaged_list ++ [pkg_name] }
    if e.is_optional then { stats with optional_packaged := stats.optional_packaged + 1 }
    else stats
  else
    let stats := { stats with
      missing := stats.missing + 1
      missing_list := stats.missing_list ++ [pkg_name] }
    if e.is_optional then { stats with
      optional_missing := stats.optional_missing + 1
      optional_missing_list := stats.optional_missing_list ++ [pkg_name] }
    else stats

/-- `_compute_stats_from_visited` (`check.py` lines 55-79): one pass
over the visited dict in insertion order. -/
def compute_stats_from_visited (visited : Visited) : TreeStats :=
  visited.foldl stats_step TreeStats.empty

/-! ### The language provider as consumed by the core

`build_tree` consumes a `LanguageProvider` through
`fetch_package_info`, `check_fedora_packaging`, `registry_name` and
`get_normal_dependencies`. A registry lookup may raise (e.g. the
`RuntimeError` of `rust.py` lines 77-80 for a non-200/404 response);
`build_tree` contains no exception handler, so such errors propagate,
which the embedding renders in the `Except` monad.
`check_fedora_packaging` degrades subprocess failures to "not packaged"
internally (`base.py` lines 275-279) and therefore never raises. -/

abbrev RegistryError := String

structure LanguageProvider where
  registry_name : String
  fetch_package_info : String → Except RegistryError (Option PackageInfo)
  fetch_dependencies : String → String → Except RegistryError (List Dependency)
  check_fedora_packaging : String → FedoraPackageStatus

/-- `LanguageProvider.get_latest_version` (`base.py` lines 120-133). -/
def get_latest_version (p : LanguageProvider) (package_name : String) :
    Except RegistryError (Option String) := do
  match (← p.fetch_package_info package_name) with
  | none => pure none
  | some info => pure (some info.latest_version)

/-- `LanguageProvider.get_normal_dependencies` (`base.py` lines
135-165): resolve the version when absent, fetch the declared edges,
and keep the `kind == "normal"` ones, dropping optional edges unless
`include_optional`. -/
def get_normal_dependencies (p : LanguageProvider) (package_name : String)
    (version : Option String) (include_optional : Bool) :
    Except RegistryError (List (String × String × Bool)) := do
  let resolved ← match version with
    | none => get_latest_version p package_name
    | some v => pure (some v)
  match resolved with
  | none => pure []
  | some v => do
      let deps ← p.fetch_dependencies package_name v
      pure ((deps.filter
              (fun d => d.kind = "normal" && (include_optional || !d.optional))).map
            (fun d => (d.name, d.version_requirement, d.optional)))

/-! ### The tree builder (`build_tree`, `check.py` lines 82-247)

The Python function recurses with `depth + 1` and an unchanged
`max_depth`, and reads both only in the guard `depth > max_depth`
(line 131); the recursion below is therefore driven by the remaining
budget `max_depth + 1 - depth` (zero exactly when `depth > max_depth`),
and `build_tree` restores the source signature. Logging and the
progress tracker are pure side channels with no influence on the result
or the visited map and are not modelled. -/

/-- The `optional_marker` of `check.py` line 129. -/
def optional_marker_str (is_optional_dep : Bool) : String :=
  if is_optional_dep then " [yellow](optional)[/yellow]" else ""

/-- Python `str()` of an `Optional[str]` as used inside f-strings. -/
def py_str_opt : Option String → String
  | none => "None"
  | some s => s

/-- The truncation leaf of `check.py` line 133. -/
def max_depth_text (package_name optional_marker : String) : String :=
  s!"[dim]{package_name}{optional_marker} (max depth reached)[/dim]"

/-- The already-visited leaf of `check.py` lines 142-145; the marker
comes from the current edge, the status and cached version from the
stored entry. -/
def visited_leaf_text (package_name : String) (entry : VisitedEntry)
    (optional_marker : String) : String :=
  if entry.is_packaged then
    let cv := py_str_opt entry.version
    s!"[dim]{package_name}[/dim] [dim]v{cv}[/dim]{optional_marker} • [green]✓[/green] [dim](already visited)[/dim]"
  else
    s!"[dim]{package_name}[/dim]{optional_marker} • [red]✗[/red] [dim](already visited)[/dim]"

/-- The registry-not-found leaf of `check.py` lines 161-164. -/
def not_found_text (package_name optional_marker registry_name : String) : String :=
  s!"[bold red]{package_name}[/bold red]{optional_marker} • [red]not found on {registry_name}[/red]"

/-- The `license_str` of `check.py` lines 169-171 (`if pkg_info and
pkg_info.license:` — Python truthiness makes an empty license string
behave like an absent one). -/
def license_str_of (pkg_info : Option PackageInfo) : String :=
  match pkg_info with
  | some pi =>
      match pi.license with
      | some l => if l = "" then "" else s!" [magenta]({l})[/magenta]"
      | none => ""
  | none => ""

/-- The node label of `check.py` lines 188-201. -/
def node_label (package_name version license_str optional_marker : String)
    (status : FedoraPackageStatus) : String :=
  if status.is_packaged then
    let ver_str :=
      if status.versions.isEmpty then "unknown"
      else String.intercalate ", " status.versions
    let pkg_str := String.intercalate ", " status.package_names
    let label :=
      s!"[bold]{package_name}[/bold] [dim]v{version}[/dim]{license_str}{optional_marker} • [green]✓ packaged[/green] [dim]({ver_str})[/dim]"
    if pkg_str = "" then label else label ++ s!" [dim cyan][{pkg_str}][/dim cyan]"
  else
    s!"[bold]{package_name}[/bold] [dim]v{version}[/dim]{license_str}{optional_marker} • [red]✗ not packaged[/red]"

/-- The dependency loop of `check.py` lines 219-245, parametrised by
the recursive call (`step dep_name dep_is_optional visited`): skip
edges matching an exclude pattern, otherwise recurse, threading the
shared visited map left to right and collecting the children in
dependency-list order; an uncaught exception aborts everything. -/
def build_children
    (step : String → Bool → Visited → Except RegistryError (TreeNode × Visited))
    (deps : List (String × String × Bool)) (visited : Visited)
    (exclude_patterns : List String) :
    Except RegistryError (List TreeNode × Visited) :=
  match deps with
  | [] => .ok ([], visited)
  | (dep_name, _dep_req, dep_is_optional) :: rest =>
      if matchesAny dep_name exclude_patterns then
        build_children step rest visited exclude_patterns
      else
        match step dep_name dep_is_optional visited with
        | .error e => .error e
        | .ok (child, visited') =>
            match build_children step rest visited' exclude_patterns with
            | .error e => .error e
            | .ok (children, visited'') => .ok (child :: children, visited'')

/-- The part of `build_tree` after version resolution (`check.py` lines
169-247): build the license string, query the distribution
unconditionally, record the visited entry, build the label, fetch the
normal dependencies and expand them into children. -/
def build_tree_resolved
    (step : String → Bool → Visited → Except RegistryError (TreeNode × Visited))
    (provider : LanguageProvider) (package_name version : String)
    (pkg_info : Option PackageInfo) (visited : Visited)
    (include_optional is_optional_dep : Bool) (exclude_patterns : List String) :
    Except RegistryError (TreeNode × Visited) :=
  let license_str := license_str_of pkg_info
  let status := provider.check_fedora_packaging package_name
  let visited1 := Visited.insert visited package_name
    ⟨status.is_packaged, some version, is_optional_dep⟩
  let label := node_label package_name version license_str
    (optional_marker_str is_optional_dep) status
  match get_normal_dependencies provider package_name (some version) include_optional with
  | .error e => .error e
  | .ok deps =>
      match build_children step deps visited1 exclude_patterns with
      | .error e => .error e
      | .ok (children, visited2) => .ok (.node label children, visited2)

/-- `build_tree` driven by the remaining depth budget
`max_depth + 1 - depth`; budget 0 is exactly the guard
`depth > max_depth` of `check.py` line 131, which precedes the
already-visited check of line 135. -/
def build_tree_budget : Nat → LanguageProvider → String → Option String → Visited →
    Bool → Bool → List String → Except RegistryError (TreeNode × Visited)
  | 0, _provider, package_name, _version, visited, _include_optional, is_optional_dep,
      _exclude_patterns =>
      .ok (.leaf (max_depth_text package_name (optional_marker_str is_optional_dep)), visited)
  | b + 1, provider, package_name, version, visited, include_optional, is_optional_dep,
      exclude_patterns =>
      match Visited.find visited package_name with
      | some entry =>
          .ok (.leaf (visited_leaf_text package_name entry
                (optional_marker_str is_optional_dep)), visited)
      | none =>
          let step := fun dep_name dep_is_optional vis =>
            build_tree_budget b provider dep_name none vis include_optional
              dep_is_optional exclude_patterns
          match version with
          | none =>
              match provider.fetch_package_info package_name with
              | .error e => .error e
              | .ok none =>
                  .ok (.leaf (not_found_text package_name
                        (optional_marker_str is_optional_dep) provider.registry_name),
                      Visited.insert visited package_name ⟨false, none, is_optional_dep⟩)
              | .ok (some pkg_info) =>
                  build_tree_resolved step provider package_name pkg_info.latest_version
                    (some pkg_info) visited include_optional is_optional_dep
                    exclude_patterns
          | some v =>
              match provider.fetch_package_info package_name with
              | .error e => .error e
              | .ok pkg_info =>
                  build_tree_resolved step provider package_name v pkg_info visited
                    include_optional is_optional_dep exclude_patterns

/-- `build_tree` (`check.py` lines 82-247) with the source signature;
the result pairs the returned tree with the visited dict the call
mutated (`check` passes `depth = 0`, `max_depth = 50` by default). -/
def build_tree (provider : LanguageProvider) (package_name : String)
    (version : Option String) (visited : Visited) (depth max_depth : Nat)
    (include_optional is_optional_dep : Bool) (exclude_patterns : List String) :
    Except RegistryError (TreeNode × Visited) :=
  build_tree_budget (max_depth + 1 - depth) provider package_name version visited
    include_optional is_optional_dep exclude_patterns

/-! ### Call-counting variant of the tree builder (termination, claim C10)

`build_tree_gas` is the same function with the source's `depth` and
`max_depth` arguments kept verbatim, instrumented with a gas counter
that is spent once per recursive call and is independent of the depth
guard: running out of gas (`none`) stands for a recursion deeper than
the allotted call budget. Claim C10 is settled by proving that
`max_depth + 1 - depth` gas always suffices and reproduces
`build_tree`, i.e. the recursion depth never exceeds
`max_depth + 1`. -/

/-- The dependency loop, for an `Option`-layered (gas-limited) recursive
call. -/
def build_children_gas
    (step : String → Bool → Visited → Option (Except RegistryError (TreeNode × Visited)))
    (deps : List (String × String × Bool)) (visited : Visited)
    (exclude_patterns : List String) :
    Option (Except RegistryError (List TreeNode × Visited)) :=
  match deps with
  | [] => some (.ok ([], visited))
  | (dep_name, _dep_req, dep_is_optional) :: rest =>
      if matchesAny dep_name exclude_patterns then
        build_children_gas step rest visited exclude_patterns
      else
        match step dep_name dep_is_optional visited with
        | none => none
        | some (.error e) => some (.error e)
        | some (.ok (child, visited')) =>
            match build_children_gas step rest visited' exclude_patterns with
            | none => none
            | some (.error e) => some (.error e)
            | some (.ok (children, visited'')) =>
                some (.ok (child :: children, visited''))

/-- The post-resolution part of `build_tree`, for a gas-limited
recursive call. -/
def build_tree_resolved_gas
    (step : String → Bool → Visited → Option (Except RegistryError (TreeNode × Visited)))
    (provider : LanguageProvider) (package_name version : String)
    (pkg_info : Option PackageInfo) (visited : Visited)
    (include_optional is_optional_dep : Bool) (exclude_patterns : List String) :
    Option (Except RegistryError (TreeNode × Visited)) :=
  let license_str := license_str_of pkg_info
  let status := provider.check_fedora_packaging package_name
  let visited1 := Visited.insert visited package_name
    ⟨status.is_packaged, some version, is_optional_dep⟩
  let label := node_label package_name version license_str
    (optional_marker_str is_optional_dep) status
  match get_normal_dependencies provider package_name (some version) include_optional with
  | .error e => some (.error e)
  | .ok deps =>
      match build_children_gas step deps visited1 exclude_patterns with
      | none => none
      | some (.error e) => some (.error e)
      | some (.ok (children, visited2)) => some (.ok (.node label children, visited2))

/-- `build_tree` with `depth`/`max_depth` kept as in the source and a
gas unit consumed by every recursive call; each recursive call passes
`depth + 1` and an unchanged `max_depth` (`check.py` lines 226-237),
and the guard `depth > max_depth` of line 131 returns without
recursing. -/
def build_tree_gas : Nat → LanguageProvider → String → Option String → Visited →
    Nat → Nat → Bool → Bool → List String →
    Option (Except RegistryError (TreeNode × Visited))
  | 0, _, _, _, _, _, _, _, _, _ => none
  | g + 1, provider, package_name, version, visited, depth, max_depth,
      include_optional, is_optional_dep, exclude_patterns =>
      if max_depth < depth then
        some (.ok (.leaf (max_depth_text package_name
          (optional_marker_str is_optional_dep)), visited))
      else
        match Visited.find visited package_name with
        | some entry =>
            some (.ok (.leaf (visited_leaf_text package_name entry
              (optional_marker_str is_optional_dep)), visited))
        | none =>
            let step := fun dep_name dep_is_optional vis =>
              build_tree_gas g provider dep_name none vis (depth + 1) max_depth
                include_optional dep_is_optional exclude_patterns
            match version with
            | none =>
                match provider.fetch_package_info package_name with
                | .error e => some (.error e)
                | .ok none =>
                    some (.ok (.leaf (not_found_text package_name
                          (optional_marker_str is_optional_dep) provider.registry_name),
                        Visited.insert visited package_name ⟨false, none, is_optional_dep⟩))
                | .ok (some pkg_info) =>
                    build_tree_resolved_gas step provider package_name
                      pkg_info.latest_version (some pkg_info) visited include_optional
                      is_optional_dep exclude_patterns
            | some v =>
                match provider.fetch_package_info package_name with
                | .error e => some (.error e)
                | .ok pkg_info =>
                    build_tree_resolved_gas step provider package_name v pkg_info
                      visited include_optional is_optional_dep exclude_patterns

/-! ### The crates.io registry client (`rust.py`), network path

The on-disk cache layer reproduces exactly the same constructions from
the cached JSON, so the embedding models the response handling: the
HTTP response is a status code plus the decoded JSON payload. -/

/-- The fields of the `crate` object of a crates.io response that
`rust.py` reads. -/
structure CrateJson where
  name : String
  newest_version : String
  description : Option String
  homepage : Option String
  repository : Option String
  license : Option String
deriving DecidableEq, Repr

/-- One element of the `versions` array of a crates.io response
(`rust.py` reads only its license). -/
structure CrateVersionJson where
  license : Option String
deriving DecidableEq, Repr

/-- A response of `GET /api/v1/crates/{name}` as consumed by
`RustProvider.fetch_package_info`. -/
structure CratesInfoResponse where
  status_code : Nat
  crate : CrateJson
  versions : List CrateVersionJson
deriving DecidableEq, Repr

/-- One element of the `dependencies` array of
`GET /api/v1/crates/{name}/{version}/dependencies`. -/
structure DepJson where
  crate_id : String
  req : String
  optional : Bool
  kind : String
deriving DecidableEq, Repr

/-- A response of the crates.io dependencies endpoint. -/
structure CratesDepsResponse where
  status_code : Nat
  dependencies : List DepJson
deriving DecidableEq, Repr

/-- `RustProvider._extract_license` (`rust.py` lines 32-49): the
crate-level license when truthy (present and non-empty), otherwise the
first (newest) version's license, otherwise `None`. -/
def rust_extract_license : Option String → List CrateVersionJson → Option String
  | some l, versions =>
      if l = "" then
        match versions with
        | [] => none
        | v :: _ => v.license
      else some l
  | none, versions =>
      match versions with
      | [] => none
      | v :: _ => v.license

/-- `RustProvider.fetch_package_info` (`rust.py` lines 51-92) on the
network path: 404 means "not found" (`None`), any other non-200 status
raises `RuntimeError`, and a 200 is parsed into a `PackageInfo`. -/
def rust_fetch_package_info (package_name : String) (r : CratesInfoResponse) :
    Except RegistryError (Option PackageInfo) :=
  if r.status_code = 404 then .ok none
  else if r.status_code ≠ 200 then
    .error (s!"Failed to fetch metadata for crate {package_name}: "
      ++ toString r.status_code)
  else
    .ok (some
      { name := r.crate.name
        latest_version := r.crate.newest_version
        description := r.crate.description
        homepage := r.crate.homepage
        repository := r.crate.repository
        license := rust_extract_license r.crate.license r.versions })

/-- `RustProvider.fetch_dependencies` (`rust.py` lines 94-132) on the
network path: any non-200 status (including transport and server
errors) is converted into an empty dependency list (and cached as
such, lines 116-118); a 200 is mapped into `Dependency` records. -/
def rust_fetch_dependencies (r : CratesDepsResponse) : List Dependency :=
  if r.status_code ≠ 200 then []
  else r.dependencies.map (fun d => ⟨d.crate_id, d.req, d.optional, d.kind⟩)

/-! ### Invariants and sample data used by the claims -/

/-- Resolution of the version at `check.py` lines 152-167: either the
caller pinned `v` (and the package info, available or not, is fetched
without short-circuiting), or no version was given and the registry
returned info whose `latest_version` is `v`. -/
def resolvesTo (p : LanguageProvider) (package_name : String)
    (version : Option String) (v : String) (pkg_info : Option PackageInfo) : Prop :=
  (version = some v ∧ p.fetch_package_info package_name = .ok pkg_info) ∨
  (version = none ∧ ∃ pi, pkg_info = some pi ∧
    p.fetch_package_info package_name = .ok (some pi) ∧ pi.latest_version = v)

/-- The `version` component of a visited entry is `None` only for
packages the registry reported as not found (which are also recorded
as not packaged). -/
def NoneVersionInv (p : LanguageProvider) (vis : Visited) : Prop :=
  ∀ k e, vis.find k = some e → e.version = none →
    e.is_packaged = false ∧ p.fetch_package_info k = .ok none

/-- A provider over a three-package registry used to instantiate the
claims' witnesses: `alpha` depends on `beta` (required) and on itself,
plus an excluded name; `beta` is packaged; `gamma` is optional. -/
def sampleProvider : LanguageProvider where
  registry_name := "crates.io"
  fetch_package_info := fun n =>
    if n = "alpha" then .ok (some ⟨"alpha", "1.0.0", none, none, none, some "MIT"⟩)
    else if n = "beta" then .ok (some ⟨"beta", "2.0.0", none, none, none, none⟩)
    else if n = "gamma" then .ok (some ⟨"gamma", "0.3.0", none, none, none, none⟩)
    else .ok none
  fetch_dependencies := fun n _v =>
    if n = "alpha" then
      .ok [⟨"beta", "^2", false, "normal"⟩, ⟨"windows-sys", "^0.5", false, "normal"⟩,
           ⟨"gamma", "^0.3", true, "normal"⟩, ⟨"alpha", "^1", false, "normal"⟩]
    else .ok []
  check_fedora_packaging := fun n =>
    if n = "beta" then ⟨true, ["2.0.0"], ["rust-beta"]⟩ else ⟨false, [], []⟩

/-- A provider whose registry raises on every metadata fetch. -/
def failingProvider : LanguageProvider where
  registry_name := "crates.io"
  fetch_package_info := fun n =>
    .error (s!"Failed to fetch metadata for crate {n}: " ++ toString 503)
  fetch_dependencies := fun _ _ => .ok []
  check_fedora_packaging := fun _ => ⟨false, [], []⟩

/-! ## Lemmas about the visited map -/

theorem Visited.find_append_of_some {vis : Visited} {k : String} {e : VisitedEntry}
    (new : Visited) (h : Visited.find vis k = some e) :
    Visited.find (vis ++ new) k = some e := by
  induction vis with
  | nil => simp [Visited.find] at h
  | cons hd tl ih =>
      obtain ⟨k', e'⟩ := hd
      by_cases hk : k' = k
      · simp [Visited.find, hk] at h ⊢
        exact h
      · simp [Visited.find, hk] at h ⊢
        exact ih h

theorem Visited.find_append_of_none {vis : Visited} {k : String}
    (new : Visited) (h : Visited.find vis k = none) :
    Visited.find (vis ++ new) k = Visited.find new k := by
  induction vis with
  | nil => simp [Visited.find]
  | cons hd tl ih =>
      obtain ⟨k', e'⟩ := hd
      by_cases hk : k' = k
      · simp [Visited.find, hk] at h
      · simp [Visited.find, hk] at h ⊢
        exact ih h

theorem Visited.insert_of_find_none {vis : Visited} {k : String}
    (e : VisitedEntry) (h : Visited.find vis k = none) :
    Visited.insert vis k e = vis ++ [(k, e)] := by
  induction vis with
  | nil => simp [Visited.insert]
  | cons hd tl ih =>
      obtain ⟨k', e'⟩ := hd
      by_cases hk : k' = k
      · simp [Visited.find, hk] at h
      · simp [Visited.find, hk] at h
        simp [Visited.insert, hk, ih h]

theorem Visited.find_eq_none_iff {vis : Visited} {k : String} :
    Visited.find vis k = none ↔ k ∉ vis.map Prod.fst := by
  induction vis with
  | nil => simp [Visited.find]
  | cons hd tl ih =>
      obtain ⟨k', e'⟩ := hd
      by_cases hk : k' = k
      · simp [Visited.find, hk]
      · have hk2 : k ≠ k' := fun hh => hk hh.symm
        simp [Visited.find, hk, hk2, ih]

theorem Visited.find_singleton_self {k : String} {e : VisitedEntry} :
    Visited.find [(k, e)] k = some e := by
  simp [Visited.find]

theorem Visited.find_append_eq_none_iff {a b : Visited} {k : String} :
    Visited.find (a ++ b) k = none ↔
      Visited.find a k = none ∧ Visited.find b k = none := by
  induction a with
  | nil => simp [Visited.find]
  | cons hd tl ih =>
      obtain ⟨k', e'⟩ := hd
      by_cases hk : k' = k
      · simp [Visited.find, hk]
      · simp [Visited.find, hk, ih]

theorem Visited.find_some_mem {vis : Visited} {k : String} {e : VisitedEntry}
    (h : Visited.find vis k = some e) : (k, e) ∈ vis := by
  induction vis with
  | nil => simp [Visited.find] at h
  | cons hd tl ih =>
      obtain ⟨k', e'⟩ := hd
      by_cases hk : k' = k
      · simp [Visited.find, hk] at h
        simp [hk, h]
      · simp [Visited.find, hk] at h
        simp [ih h]

/-! ## How a traversal extends the visited map

The central invariant: a call only ever appends fresh, pairwise
distinct keys to the visited map — each key being either the call's own
package name or a non-excluded dependency name — and stores a `None`
version only for packages the registry reported missing. -/

theorem build_children_visited_spec
    (p : LanguageProvider) (ex : List String)
    (step : String → Bool → Visited → Except RegistryError (TreeNode × Visited))
    (hstep : ∀ dn dopt visa t visb, step dn dopt visa = .ok (t, visb) →
      ∃ new : Visited, visb = visa ++ new ∧ (new.map Prod.fst).Nodup ∧
        (∀ k, k ∈ new.map Prod.fst → Visited.find visa k = none) ∧
        (∀ ke ∈ new, ke.1 = dn ∨ matchesAny ke.1 ex = false) ∧
        (∀ ke ∈ new, ke.2.version = none →
          ke.2.is_packaged = false ∧ p.fetch_package_info ke.1 = .ok none)) :
    ∀ (deps : List (String × String × Bool)) (vis : Visited)
      (cs : List TreeNode) (vis' : Visited),
      build_children step deps vis ex = .ok (cs, vis') →
      ∃ new : Visited, vis' = vis ++ new ∧ (new.map Prod.fst).Nodup ∧
        (∀ k, k ∈ new.map Prod.fst → Visited.find vis k = none) ∧
        (∀ ke ∈ new, matchesAny ke.1 ex = false) ∧
        (∀ ke ∈ new, ke.2.version = none →
          ke.2.is_packaged = false ∧ p.fetch_package_info ke.1 = .ok none) := by
  intro deps
  induction deps with
  | nil =>
      intro vis cs vis' hok
      simp only [build_children, Except.ok.injEq, Prod.mk.injEq] at hok
      obtain ⟨hcs, hvis⟩ := hok
      exact ⟨[], by simp [hvis.symm], by simp, by simp, by simp, by simp⟩
  | cons dep rest ih =>
      intro vis cs vis' hok
      obtain ⟨dn, dreq, dopt⟩ := dep
      cases hex : matchesAny dn ex with
      | true =>
          have heq : build_children step ((dn, dreq, dopt) :: rest) vis ex
              = build_children step rest vis ex := by
            simp [build_children, hex]
          rw [heq] at hok
          exact ih vis cs vis' hok
      | false =>
        cases hst : step dn dopt vis with
        | error e =>
            have heq : build_children step ((dn, dreq, dopt) :: rest) vis ex
                = .error e := by
              simp [build_children, hex, hst]
            rw [heq] at hok
            cases hok
        | ok res =>
            obtain ⟨child, vis1⟩ := res
            cases hrest : build_children step rest vis1 ex with
            | error e =>
                have heq : build_children step ((dn, dreq, dopt) :: rest) vis ex
                    = .error e := by
                  simp [build_children, hex, hst, hrest]
                rw [heq] at hok
                cases hok
            | ok res2 =>
                obtain ⟨children, vis2⟩ := res2
                have heq : build_children step ((dn, dreq, dopt) :: rest) vis ex
                    = .ok (child :: children, vis2) := by
                  simp [build_children, hex, hst, hrest]
                rw [heq] at hok
                simp only [Except.ok.injEq, Prod.mk.injEq] at hok
                obtain ⟨hcs, hvis⟩ := hok
                subst hvis
                obtain ⟨n1, hv1, hnd1, hf1, hr1, hvp1⟩ := hstep dn dopt vis child vis1 hst
                obtain ⟨n2, hv2, hnd2, hf2, hr2, hvp2⟩ := ih vis1 children vis2 hrest
                refine ⟨n1 ++ n2, ?_, ?_, ?_, ?_, ?_⟩
                · rw [hv2, hv1, List.append_assoc]
                · rw [List.map_append]
                  refine List.Nodup.append hnd1 hnd2 ?_
                  intro k hk1 hk2
                  have hnone := hf2 k hk2
                  rw [hv1, Visited.find_append_eq_none_iff] at hnone
                  exact (Visited.find_eq_none_iff.mp hnone.2) hk1
                · intro k hk
                  rw [List.map_append, List.mem_append] at hk
                  rcases hk with hk | hk
                  · exact hf1 k hk
                  · have hnone := hf2 k hk
                    rw [hv1, Visited.find_append_eq_none_iff] at hnone
                    exact hnone.1
                · intro ke hke
                  rcases List.mem_append.mp hke with hke | hke
                  · rcases hr1 ke hke with hd | hd
                    · rw [hd]; exact hex
                    · exact hd
                  · exact hr2 ke hke
                · intro ke hke
                  rcases List.mem_append.mp hke with hke | hke
                  · exact hvp1 ke hke
                  · exact hvp2 ke hke

theorem build_tree_resolved_visited_spec
    (p : LanguageProvider) (ex : List String)
    (step : String → Bool → Visited → Except RegistryError (TreeNode × Visited))
    (hstep : ∀ dn dopt visa t visb, step dn dopt visa = .ok (t, visb) →
      ∃ new : Visited, visb = visa ++ new ∧ (new.map Prod.fst).Nodup ∧
        (∀ k, k ∈ new.map Prod.fst → Visited.find visa k = none) ∧
        (∀ ke ∈ new, ke.1 = dn ∨ matchesAny ke.1 ex = false) ∧
        (∀ ke ∈ new, ke.2.version = none →
          ke.2.is_packaged = false ∧ p.fetch_package_info ke.1 = .ok none))
    (root v : String) (pki : Option PackageInfo) (vis : Visited)
    (io iod : Bool) (t : TreeNode) (vis' : Visited)
    (hfind : Visited.find vis root = none)
    (hok : build_tree_resolved step p root v pki vis io iod ex = .ok (t, vis')) :
    ∃ new : Visited, vis' = vis ++ new ∧ (new.map Prod.fst).Nodup ∧
      (∀ k, k ∈ new.map Prod.fst → Visited.find vis k = none) ∧
      (∀ ke ∈ new, ke.1 = root ∨ matchesAny ke.1 ex = false) ∧
      (∀ ke ∈ new, ke.2.version = none →
        ke.2.is_packaged = false ∧ p.fetch_package_info ke.1 = .ok none) ∧
      ∃ rest2, new = (root,
        ⟨(p.check_fedora_packaging root).is_packaged, some v, iod⟩) :: rest2 := by
  cases hdeps : get_normal_dependencies p root (some v) io with
  | error e =>
      have heq : build_tree_resolved step p root v pki vis io iod ex = .error e := by
        simp [build_tree_resolved, hdeps]
      rw [heq] at hok; cases hok
  | ok deps =>
      cases hch : build_children step deps
          (Visited.insert vis root
            ⟨(p.check_fedora_packaging root).is_packaged, some v, iod⟩) ex with
      | error e =>
          have heq : build_tree_resolved step p root v pki vis io iod ex
              = .error e := by
            simp [build_tree_resolved, hdeps, hch]
          rw [heq] at hok; cases hok
      | ok res =>
          obtain ⟨cs, vis2⟩ := res
          have heq : build_tree_resolved step p root v pki vis io iod ex
              = .ok (.node (node_label root v (license_str_of pki)
                  (optional_marker_str iod) (p.check_fedora_packaging root)) cs,
                vis2) := by
            simp [build_tree_resolved, hdeps, hch]
          rw [heq] at hok
          simp only [Except.ok.injEq, Prod.mk.injEq] at hok
          obtain ⟨ht, hvis⟩ := hok
          subst hvis
          set e1 : VisitedEntry :=
            ⟨(p.check_fedora_packaging root).is_packaged, some v, iod⟩ with he1
          set vis1 := Visited.insert vis root e1 with hvis1
          obtain ⟨n2, hv2, hnd2, hf2, hr2, hvp2⟩ :=
            build_children_visited_spec p ex step hstep deps vis1 cs vis2 hch
          have hins : vis1 = vis ++ [(root, e1)] :=
            Visited.insert_of_find_none e1 hfind
          have hfresh2 : ∀ k, k ∈ n2.map Prod.fst →
              Visited.find vis k = none ∧ Visited.find [(root, e1)] k = none := by
            intro k hk
            have := hf2 k hk
            rw [hins, Visited.find_append_eq_none_iff] at this
            exact this
          refine ⟨(root, e1) :: n2, ?_, ?_, ?_, ?_, ?_, ⟨n2, rfl⟩⟩
          · rw [hv2, hins, List.append_assoc]
            simp
          · simp only [List.map_cons, List.nodup_cons]
            refine ⟨?_, hnd2⟩
            intro hmem
            have := (hfresh2 root hmem).2
            rw [Visited.find_singleton_self] at this
            cases this
          · intro k hk
            simp only [List.map_cons, List.mem_cons] at hk
            rcases hk with rfl | hk
            · exact hfind
            · exact (hfresh2 k hk).1
          · intro ke hke
            rcases List.mem_cons.mp hke with rfl | hke
            · exact Or.inl rfl
            · exact Or.inr (hr2 ke hke)
          · intro ke hke
            rcases List.mem_cons.mp hke with rfl | hke
            · intro hv
              simp [he1] at hv
            · exact hvp2 ke hke

theorem build_tree_budget_visited_spec (b : Nat) :
    ∀ (p : LanguageProvider) (root : String) (ver : Option String)
      (vis : Visited) (io iod : Bool) (ex : List String)
      (t : TreeNode) (vis' : Visited),
      build_tree_budget b p root ver vis io iod ex = .ok (t, vis') →
      ∃ new : Visited, vis' = vis ++ new ∧ (new.map Prod.fst).Nodup ∧
        (∀ k, k ∈ new.map Prod.fst → Visited.find vis k = none) ∧
        (∀ ke ∈ new, ke.1 = root ∨ matchesAny ke.1 ex = false) ∧
        (∀ ke ∈ new, ke.2.version = none →
          ke.2.is_packaged = false ∧ p.fetch_package_info ke.1 = .ok none) := by
  induction b with
  | zero =>
      intro p root ver vis io iod ex t vis' hok
      simp only [build_tree_budget, Except.ok.injEq, Prod.mk.injEq] at hok
      exact ⟨[], by simp [hok.2.symm], by simp, by simp, by simp, by simp⟩
  | succ b ih =>
      intro p root ver vis io iod ex t vis' hok
      have hstep : ∀ dn dopt visa t2 visb,
          build_tree_budget b p dn none visa io dopt ex = .ok (t2, visb) →
          ∃ new : Visited, visb = visa ++ new ∧ (new.map Prod.fst).Nodup ∧
            (∀ k, k ∈ new.map Prod.fst → Visited.find visa k = none) ∧
            (∀ ke ∈ new, ke.1 = dn ∨ matchesAny ke.1 ex = false) ∧
            (∀ ke ∈ new, ke.2.version = none →
              ke.2.is_packaged = false ∧ p.fetch_package_info ke.1 = .ok none) :=
        fun dn dopt visa t2 visb h => ih p dn none visa io dopt ex t2 visb h
      cases hfind : Visited.find vis root with
      | some entry =>
          have heq : build_tree_budget (b + 1) p root ver vis io iod ex
              = .ok (.leaf (visited_leaf_text root entry (optional_marker_str iod)),
                  vis) := by
            simp [build_tree_budget, hfind]
          rw [heq] at hok
          simp only [Except.ok.injEq, Prod.mk.injEq] at hok
          exact ⟨[], by simp [hok.2.symm], by simp, by simp, by simp, by simp⟩
      | none =>
          cases ver with
          | none =>
              cases hpi : p.fetch_package_info root with
              | error e =>
                  have heq : build_tree_budget (b + 1) p root none vis io iod ex
                      = .error e := by
                    simp [build_tree_budget, hfind, hpi]
                  rw [heq] at hok; cases hok
              | ok oinfo =>
                  cases oinfo with
                  | none =>
                      have heq : build_tree_budget (b + 1) p root none vis io iod ex
                          = .ok (.leaf (not_found_text root (optional_marker_str iod)
                                p.registry_name),
                              Visited.insert vis root ⟨false, none, iod⟩) := by
                        simp [build_tree_budget, hfind, hpi]
                      rw [heq] at hok
                      simp only [Except.ok.injEq, Prod.mk.injEq] at hok
                      obtain ⟨ht, hvis⟩ := hok
                      refine ⟨[(root, ⟨false, none, iod⟩)], ?_, by simp, ?_, ?_, ?_⟩
                      · rw [hvis.symm, Visited.insert_of_find_none _ hfind]
                      · intro k hk
                        simp only [List.map_cons, List.map_nil, List.mem_singleton] at hk
                        rw [hk]; exact hfind
                      · intro ke hke
                        rcases List.mem_singleton.mp hke with rfl
                        exact Or.inl rfl
                      · intro ke hke
                        rcases List.mem_singleton.mp hke with rfl
                        exact fun _ => ⟨rfl, hpi⟩
                  | some pi =>
                      have heq : build_tree_budget (b + 1) p root none vis io iod ex
                          = build_tree_resolved
                              (fun dn dopt vis2 => build_tree_budget b p dn none vis2
                                io dopt ex)
                              p root pi.latest_version (some pi) vis io iod ex := by
                        simp [build_tree_budget, hfind, hpi]
                      rw [heq] at hok
                      obtain ⟨new, h1, h2, h3, h4, h5, _⟩ :=
                        build_tree_resolved_visited_spec p ex _ hstep root
                          pi.latest_version (some pi) vis io iod t vis' hfind hok
                      exact ⟨new, h1, h2, h3, h4, h5⟩
          | some v =>
              cases hpi : p.fetch_package_info root with
              | error e =>
                  have heq : build_tree_budget (b + 1) p root (some v) vis io iod ex
                      = .error e := by
                    simp [build_tree_budget, hfind, hpi]
                  rw [heq] at hok; cases hok
              | ok oinfo =>
                  have heq : build_tree_budget (b + 1) p root (some v) vis io iod ex
                      = build_tree_resolved
                          (fun dn dopt vis2 => build_tree_budget b p dn none vis2
                            io dopt ex)
                          p root v oinfo vis io iod ex := by
                    simp [build_tree_budget, hfind, hpi]
                  rw [heq] at hok
                  obtain ⟨new, h1, h2, h3, h4, h5, _⟩ :=
                    build_tree_resolved_visited_spec p ex _ hstep root v oinfo
                      vis io iod t vis' hfind hok
                  exact ⟨new, h1, h2, h3, h4, h5⟩

/-- Shorthand for the step hypothesis of the children lemmas,
discharged by the master lemma. -/
theorem budget_step_spec (b : Nat) (p : LanguageProvider) (io : Bool)
    (ex : List String) :
    ∀ dn dopt visa t2 visb,
      build_tree_budget b p dn none visa io dopt ex = .ok (t2, visb) →
      ∃ new : Visited, visb = visa ++ new ∧ (new.map Prod.fst).Nodup ∧
        (∀ k, k ∈ new.map Prod.fst → Visited.find visa k = none) ∧
        (∀ ke ∈ new, ke.1 = dn ∨ matchesAny ke.1 ex = false) ∧
        (∀ ke ∈ new, ke.2.version = none →
          ke.2.is_packaged = false ∧ p.fetch_package_info ke.1 = .ok none) :=
  fun dn dopt visa t2 visb h =>
    build_tree_budget_visited_spec b p dn none visa io dopt ex t2 visb h

/-- Existing visited entries are never modified by a traversal. -/
theorem build_tree_budget_find_preserve {b : Nat} {p : LanguageProvider}
    {root : String} {ver : Option String} {vis : Visited} {io iod : Bool}
    {ex : List String} {t : TreeNode} {vis' : Visited}
    (hok : build_tree_budget b p root ver vis io iod ex = .ok (t, vis'))
    {k : String} {e : VisitedEntry} (h : Visited.find vis k = some e) :
    Visited.find vis' k = some e := by
  obtain ⟨new, hv, -, -, -, -⟩ :=
    build_tree_budget_visited_spec b p root ver vis io iod ex t vis' hok
  rw [hv]
  exact Visited.find_append_of_some new h

/-- Existing visited entries are never modified by a dependency loop
whose recursive calls are budget calls. -/
theorem build_children_budget_find_preserve {b : Nat} {p : LanguageProvider}
    {io : Bool} {ex : List String} {deps : List (String × String × Bool)}
    {vis : Visited} {cs : List TreeNode} {vis' : Visited}
    (hok : build_children
        (fun dn dopt vis2 => build_tree_budget b p dn none vis2 io dopt ex)
        deps vis ex = .ok (cs, vis'))
    {k : String} {e : VisitedEntry} (h : Visited.find vis k = some e) :
    Visited.find vis' k = some e := by
  obtain ⟨new, hv, -, -, -, -⟩ :=
    build_children_visited_spec p ex _ (budget_step_spec b p io ex) deps vis cs
      vis' hok
  rw [hv]
  exact Visited.find_append_of_some new h

/-- Distinctness of the visited keys is preserved by a traversal: each
package name is recorded at most once. -/
theorem build_tree_budget_nodup {b : Nat} {p : LanguageProvider}
    {root : String} {ver : Option String} {vis : Visited} {io iod : Bool}
    {ex : List String} {t : TreeNode} {vis' : Visited}
    (hok : build_tree_budget b p root ver vis io iod ex = .ok (t, vis'))
    (h : (vis.map Prod.fst).Nodup) : (vis'.map Prod.fst).Nodup := by
  obtain ⟨new, hv, hnd, hf, -, -⟩ :=
    build_tree_budget_visited_spec b p root ver vis io iod ex t vis' hok
  rw [hv, List.map_append]
  refine List.Nodup.append h hnd ?_
  intro k hk1 hk2
  exact (Visited.find_eq_none_iff.mp (hf k hk2)) hk1

/-- A name matching an exclude pattern is never added to the visited
map by a traversal whose root does not match. -/
theorem build_tree_budget_excluded_absent {b : Nat} {p : LanguageProvider}
    {root : String} {ver : Option String} {vis : Visited} {io iod : Bool}
    {ex : List String} {t : TreeNode} {vis' : Visited}
    (hok : build_tree_budget b p root ver vis io iod ex = .ok (t, vis'))
    (hroot : matchesAny root ex = false)
    {n : String} (hn : matchesAny n ex = true)
    (hvn : Visited.find vis n = none) : Visited.find vis' n = none := by
  obtain ⟨new, hv, -, -, hr, -⟩ :=
    build_tree_budget_visited_spec b p root ver vis io iod ex t vis' hok
  rw [hv, Visited.find_append_of_none new hvn]
  rw [Visited.find_eq_none_iff]
  intro hmem
  rw [List.mem_map] at hmem
  obtain ⟨ke, hke, hfst⟩ := hmem
  rcases hr ke hke with hd | hd
  · have hnr : n = root := hfst.symm.trans hd
    rw [hnr, hroot] at hn
    cases hn
  · rw [hfst] at hd
    rw [hn] at hd
    cases hd

/-- The `version = None` discipline is preserved by a traversal: a
`None` version is stored only for registry-missing (hence
not-packaged) names. -/
theorem build_tree_budget_none_inv {b : Nat} {p : LanguageProvider}
    {root : String} {ver : Option String} {vis : Visited} {io iod : Bool}
    {ex : List String} {t : TreeNode} {vis' : Visited}
    (hok : build_tree_budget b p root ver vis io iod ex = .ok (t, vis'))
    (hinv : NoneVersionInv p vis) : NoneVersionInv p vis' := by
  obtain ⟨new, hv, -, hf, -, hvp⟩ :=
    build_tree_budget_visited_spec b p root ver vis io iod ex t vis' hok
  intro k e hke hev
  rw [hv] at hke
  cases hfk : Visited.find vis k with
  | some e0 =>
      rw [Visited.find_append_of_some new hfk] at hke
      injection hke with heq
      subst heq
      exact hinv k e0 hfk hev
  | none =>
      rw [Visited.find_append_of_none new hfk] at hke
      exact hvp (k, e) (Visited.find_some_mem hke) hev

/-- A successful non-truncated call on a package not yet visited records
an entry for it in the final visited map, with the optionality of the
current edge. -/
theorem build_tree_budget_records_root {b : Nat} {p : LanguageProvider}
    {root : String} {ver : Option String} {vis : Visited} {io iod : Bool}
    {ex : List String} {t : TreeNode} {vis' : Visited}
    (hok : build_tree_budget (b + 1) p root ver vis io iod ex = .ok (t, vis'))
    (hfind : Visited.find vis root = none) :
    ∃ e : VisitedEntry, Visited.find vis' root = some e ∧ e.is_optional = iod := by
  have from_resolved : ∀ (v : String) (pki : Option PackageInfo),
      build_tree_resolved
        (fun dn dopt vis2 => build_tree_budget b p dn none vis2 io dopt ex)
        p root v pki vis io iod ex = .ok (t, vis') →
      ∃ e : VisitedEntry, Visited.find vis' root = some e ∧ e.is_optional = iod := by
    intro v pki hr
    obtain ⟨new, hv, -, -, -, -, rest2, hshape⟩ :=
      build_tree_resolved_visited_spec p ex _ (budget_step_spec b p io ex)
        root v pki vis io iod t vis' hfind hr
    refine ⟨⟨(p.check_fedora_packaging root).is_packaged, some v, iod⟩, ?_, rfl⟩
    rw [hv, Visited.find_append_of_none new hfind, hshape]
    simp [Visited.find]
  cases ver with
  | none =>
      cases hpi : p.fetch_package_info root with
      | error e =>
          have heq : build_tree_budget (b + 1) p root none vis io iod ex
              = .error e := by
            simp [build_tree_budget, hfind, hpi]
          rw [heq] at hok; cases hok
      | ok oinfo =>
          cases oinfo with
          | none =>
              have heq : build_tree_budget (b + 1) p root none vis io iod ex
                  = .ok (.leaf (not_found_text root (optional_marker_str iod)
                        p.registry_name),
                      Visited.insert vis root ⟨false, none, iod⟩) := by
                simp [build_tree_budget, hfind, hpi]
              rw [heq] at hok
              simp only [Except.ok.injEq, Prod.mk.injEq] at hok
              obtain ⟨-, hvis⟩ := hok
              refine ⟨⟨false, none, iod⟩, ?_, rfl⟩
              rw [hvis.symm, Visited.insert_of_find_none _ hfind,
                Visited.find_append_of_none _ hfind, Visited.find_singleton_self]
          | some pi =>
              have heq : build_tree_budget (b + 1) p root none vis io iod ex
                  = build_tree_resolved
                      (fun dn dopt vis2 => build_tree_budget b p dn none vis2
                        io dopt ex)
                      p root pi.latest_version (some pi) vis io iod ex := by
                simp [build_tree_budget, hfind, hpi]
              rw [heq] at hok
              exact from_resolved pi.latest_version (some pi) hok
  | some v =>
      cases hpi : p.fetch_package_info root with
      | error e =>
          have heq : build_tree_budget (b + 1) p root (some v) vis io iod ex
              = .error e := by
            simp [build_tree_budget, hfind, hpi]
          rw [heq] at hok; cases hok
      | ok oinfo =>
          have heq : build_tree_budget (b + 1) p root (some v) vis io iod ex
              = build_tree_resolved
                  (fun dn dopt vis2 => build_tree_budget b p dn none vis2
                    io dopt ex)
                  p root v oinfo vis io iod ex := by
            simp [build_tree_budget, hfind, hpi]
          rw [heq] at hok
          exact from_resolved v oinfo hok

/-! ## Inversion of one call of the tree builder -/

theorem build_tree_resolved_inv
    (step : String → Bool → Visited → Except RegistryError (TreeNode × Visited))
    (p : LanguageProvider) (root v : String) (pki : Option PackageInfo)
    (vis : Visited) (io iod : Bool) (ex : List String)
    (t : TreeNode) (vis' : Visited)
    (hok : build_tree_resolved step p root v pki vis io iod ex = .ok (t, vis')) :
    ∃ deps cs, get_normal_dependencies p root (some v) io = .ok deps ∧
      build_children step deps
        (Visited.insert vis root
          ⟨(p.check_fedora_packaging root).is_packaged, some v, iod⟩) ex
        = .ok (cs, vis') ∧
      t = .node (node_label root v (license_str_of pki)
          (optional_marker_str iod) (p.check_fedora_packaging root)) cs := by
  cases hdeps : get_normal_dependencies p root (some v) io with
  | error e =>
      have heq : build_tree_resolved step p root v pki vis io iod ex = .error e := by
        simp [build_tree_resolved, hdeps]
      rw [heq] at hok; cases hok
  | ok deps =>
      cases hch : build_children step deps
          (Visited.insert vis root
            ⟨(p.check_fedora_packaging root).is_packaged, some v, iod⟩) ex with
      | error e =>
          have heq : build_tree_resolved step p root v pki vis io iod ex
              = .error e := by
            simp [build_tree_resolved, hdeps, hch]
          rw [heq] at hok; cases hok
      | ok res =>
          obtain ⟨cs, vis2⟩ := res
          have heq : build_tree_resolved step p root v pki vis io iod ex
              = .ok (.node (node_label root v (license_str_of pki)
                  (optional_marker_str iod) (p.check_fedora_packaging root)) cs,
                vis2) := by
            simp [build_tree_resolved, hdeps, hch]
          rw [heq] at hok
          simp only [Except.ok.injEq, Prod.mk.injEq] at hok
          obtain ⟨ht, hvis⟩ := hok
          subst hvis
          exact ⟨deps, cs, rfl, hch, ht.symm⟩

theorem build_tree_budget_succ_inv
    (b : Nat) (p : LanguageProvider) (root : String) (ver : Option String)
    (vis : Visited) (io iod : Bool) (ex : List String)
    (t : TreeNode) (vis' : Visited)
    (hok : build_tree_budget (b + 1) p root ver vis io iod ex = .ok (t, vis')) :
    (∃ entry, Visited.find vis root = some entry ∧
      t = .leaf (visited_leaf_text root entry (optional_marker_str iod)) ∧
      vis' = vis) ∨
    (Visited.find vis root = none ∧ ver = none ∧
      p.fetch_package_info root = .ok none ∧
      t = .leaf (not_found_text root (optional_marker_str iod) p.registry_name) ∧
      vis' = Visited.insert vis root ⟨false, none, iod⟩) ∨
    (∃ v pki, Visited.find vis root = none ∧ resolvesTo p root ver v pki ∧
      build_tree_resolved
        (fun dn dopt vis2 => build_tree_budget b p dn none vis2 io dopt ex)
        p root v pki vis io iod ex = .ok (t, vis')) := by
  cases hfind : Visited.find vis root with
  | some entry =>
      have heq : build_tree_budget (b + 1) p root ver vis io iod ex
          = .ok (.leaf (visited_leaf_text root entry (optional_marker_str iod)),
              vis) := by
        simp [build_tree_budget, hfind]
      rw [heq] at hok
      simp only [Except.ok.injEq, Prod.mk.injEq] at hok
      exact Or.inl ⟨entry, rfl, hok.1.symm, hok.2.symm⟩
  | none =>
      cases ver with
      | none =>
          cases hpi : p.fetch_package_info root with
          | error e =>
              have heq : build_tree_budget (b + 1) p root none vis io iod ex
                  = .error e := by
                simp [build_tree_budget, hfind, hpi]
              rw [heq] at hok; cases hok
          | ok oinfo =>
              cases oinfo with
              | none =>
                  have heq : build_tree_budget (b + 1) p root none vis io iod ex
                      = .ok (.leaf (not_found_text root (optional_marker_str iod)
                            p.registry_name),
                          Visited.insert vis root ⟨false, none, iod⟩) := by
                    simp [build_tree_budget, hfind, hpi]
                  rw [heq] at hok
                  simp only [Except.ok.injEq, Prod.mk.injEq] at hok
                  exact Or.inr (Or.inl ⟨rfl, rfl, rfl, hok.1.symm, hok.2.symm⟩)
              | some pi =>
                  have heq : build_tree_budget (b + 1) p root none vis io iod ex
                      = build_tree_resolved
                          (fun dn dopt vis2 => build_tree_budget b p dn none vis2
                            io dopt ex)
                          p root pi.latest_version (some pi) vis io iod ex := by
                    simp [build_tree_budget, hfind, hpi]
                  rw [heq] at hok
                  exact Or.inr (Or.inr ⟨pi.latest_version, some pi, rfl,
                    Or.inr ⟨rfl, pi, rfl, hpi, rfl⟩, hok⟩)
      | some v =>
          cases hpi : p.fetch_package_info root with
          | error e =>
              have heq : build_tree_budget (b + 1) p root (some v) vis io iod ex
                  = .error e := by
                simp [build_tree_budget, hfind, hpi]
              rw [heq] at hok; cases hok
          | ok oinfo =>
              have heq : build_tree_budget (b + 1) p root (some v) vis io iod ex
                  = build_tree_resolved
                      (fun dn dopt vis2 => build_tree_budget b p dn none vis2
                        io dopt ex)
                      p root v oinfo vis io iod ex := by
                simp [build_tree_budget, hfind, hpi]
              rw [heq] at hok
              exact Or.inr (Or.inr ⟨v, oinfo, rfl, Or.inl ⟨rfl, hpi⟩, hok⟩)

/-- Every child produced by the dependency loop is the result of one
recursive call on a non-excluded dependency name. -/
theorem build_children_provenance
    (step : String → Bool → Visited → Except RegistryError (TreeNode × Visited))
    (ex : List String) :
    ∀ (deps : List (String × String × Bool)) (vis : Visited)
      (cs : List TreeNode) (vis' : Visited),
      build_children step deps vis ex = .ok (cs, vis') →
      ∀ c ∈ cs, ∃ dn dopt visa visb, matchesAny dn ex = false ∧
        step dn dopt visa = .ok (c, visb) := by
  intro deps
  induction deps with
  | nil =>
      intro vis cs vis' hok
      simp only [build_children, Except.ok.injEq, Prod.mk.injEq] at hok
      rw [hok.1.symm]
      intro c hc
      cases hc
  | cons dep rest ih =>
      intro vis cs vis' hok
      obtain ⟨dn, dreq, dopt⟩ := dep
      cases hex : matchesAny dn ex with
      | true =>
          have heq : build_children step ((dn, dreq, dopt) :: rest) vis ex
              = build_children step rest vis ex := by
            simp [build_children, hex]
          rw [heq] at hok
          exact ih vis cs vis' hok
      | false =>
          cases hst : step dn dopt vis with
          | error e =>
              have heq : build_children step ((dn, dreq, dopt) :: rest) vis ex
                  = .error e := by
                simp [build_children, hex, hst]
              rw [heq] at hok
              cases hok
          | ok res =>
              obtain ⟨child, vis1⟩ := res
              cases hrest : build_children step rest vis1 ex with
              | error e =>
                  have heq : build_children step ((dn, dreq, dopt) :: rest) vis ex
                      = .error e := by
                    simp [build_children, hex, hst, hrest]
                  rw [heq] at hok
                  cases hok
              | ok res2 =>
                  obtain ⟨children, vis2⟩ := res2
                  have heq : build_children step ((dn, dreq, dopt) :: rest) vis ex
                      = .ok (child :: children, vis2) := by
                    simp [build_children, hex, hst, hrest]
                  rw [heq] at hok
                  simp only [Except.ok.injEq, Prod.mk.injEq] at hok
                  obtain ⟨hcs, hvis⟩ := hok
                  rw [hcs.symm]
                  intro c hc
                  rcases List.mem_cons.mp hc with rfl | hc
                  · exact ⟨dn, dopt, vis, vis1, hex, hst⟩
                  · exact ih vis1 children vis2 hrest c hc

/-- The tree returned by a call with remaining budget `b` has height at
most `b`, and its nodes at path-length exactly `b` are truncation
leaves. -/
theorem build_tree_budget_depth_bound (b : Nat) :
    ∀ (p : LanguageProvider) (root : String) (ver : Option String)
      (vis : Visited) (io iod : Bool) (ex : List String)
      (t : TreeNode) (vis' : Visited),
      build_tree_budget b p root ver vis io iod ex = .ok (t, vis') →
      (∀ d, b < d → nodesAtDepth t d = []) ∧
      (∀ t' ∈ nodesAtDepth t b, ∃ nm mk, t' = .leaf (max_depth_text nm mk)) := by
  induction b with
  | zero =>
      intro p root ver vis io iod ex t vis' hok
      simp only [build_tree_budget, Except.ok.injEq, Prod.mk.injEq] at hok
      rw [hok.1.symm]
      constructor
      · intro d hd
        cases d with
        | zero => cases hd
        | succ d => simp [nodesAtDepth]
      · intro t' ht'
        simp only [nodesAtDepth, List.mem_singleton] at ht'
        exact ⟨root, optional_marker_str iod, ht'⟩
  | succ b ih =>
      intro p root ver vis io iod ex t vis' hok
      rcases build_tree_budget_succ_inv b p root ver vis io iod ex t vis' hok with
        ⟨entry, -, ht, -⟩ | ⟨-, -, -, ht, -⟩ |
        ⟨v, pki, -, -, hres⟩
      · rw [ht]
        constructor
        · intro d hd
          cases d with
          | zero => cases hd
          | succ d => simp [nodesAtDepth]
        · intro t' ht'
          simp [nodesAtDepth] at ht'
      · rw [ht]
        constructor
        · intro d hd
          cases d with
          | zero => cases hd
          | succ d => simp [nodesAtDepth]
        · intro t' ht'
          simp [nodesAtDepth] at ht'
      · obtain ⟨deps, cs, -, hch, ht⟩ :=
          build_tree_resolved_inv _ p root v pki vis io iod ex t vis' hres
        have hchild : ∀ c ∈ cs,
            (∀ d, b < d → nodesAtDepth c d = []) ∧
            (∀ t' ∈ nodesAtDepth c b, ∃ nm mk, t' = .leaf (max_depth_text nm mk)) := by
          intro c hc
          obtain ⟨dn, dopt, visa, visb, -, hst⟩ :=
            build_children_provenance _ ex deps _ cs vis' hch c hc
          exact ih p dn none visa io dopt ex c visb hst
        rw [ht]
        constructor
        · intro d hd
          cases d with
          | zero => cases hd
          | succ d =>
              simp only [nodesAtDepth, List.flatMap_eq_nil_iff]
              intro c hc
              exact (hchild c hc).1 d (by omega)
        · intro t' ht'
          simp only [nodesAtDepth, List.mem_flatMap] at ht'
          obtain ⟨c, hc, ht'⟩ := ht'
          exact (hchild c hc).2 t' ht'

/-- Every node anywhere in the returned tree is the tree returned by
some (sub)call of the traversal on a package name that does not match
any exclude pattern — an excluded name therefore never has a node of
its own in the tree. -/
theorem build_tree_budget_subtree_provenance (b : Nat) :
    ∀ (p : LanguageProvider) (root : String) (ver : Option String)
      (vis : Visited) (io iod : Bool) (ex : List String)
      (t : TreeNode) (vis' : Visited),
      build_tree_budget b p root ver vis io iod ex = .ok (t, vis') →
      matchesAny root ex = false →
      ∀ d t', t' ∈ nodesAtDepth t d →
        ∃ b2 nm ver2 visa iod2 visb, matchesAny nm ex = false ∧
          build_tree_budget b2 p nm ver2 visa io iod2 ex = .ok (t', visb) := by
  induction b with
  | zero =>
      intro p root ver vis io iod ex t vis' hok hroot d t' ht'
      cases d with
      | zero =>
          simp only [nodesAtDepth, List.mem_singleton] at ht'
          subst ht'
          exact ⟨0, root, ver, vis, iod, vis', hroot, hok⟩
      | succ d =>
          have hleaf : t = .leaf (max_depth_text root (optional_marker_str iod)) := by
            simp only [build_tree_budget, Except.ok.injEq, Prod.mk.injEq] at hok
            exact hok.1.symm
          rw [hleaf] at ht'
          simp [nodesAtDepth] at ht'
  | succ b ih =>
      intro p root ver vis io iod ex t vis' hok hroot d t' ht'
      cases d with
      | zero =>
          simp only [nodesAtDepth, List.mem_singleton] at ht'
          subst ht'
          exact ⟨b + 1, root, ver, vis, iod, vis', hroot, hok⟩
      | succ d =>
          rcases build_tree_budget_succ_inv b p root ver vis io iod ex t vis' hok with
            ⟨entry, -, ht, -⟩ | ⟨-, -, -, ht, -⟩ | ⟨v, pki, -, -, hres⟩
          · rw [ht] at ht'
            simp [nodesAtDepth] at ht'
          · rw [ht] at ht'
            simp [nodesAtDepth] at ht'
          · obtain ⟨deps, cs, -, hch, ht⟩ :=
              build_tree_resolved_inv _ p root v pki vis io iod ex t vis' hres
            rw [ht] at ht'
            simp only [nodesAtDepth, List.mem_flatMap] at ht'
            obtain ⟨c, hc, ht'⟩ := ht'
            obtain ⟨dn, dopt, visa, visb, hdex, hst⟩ :=
              build_children_provenance _ ex deps _ cs vis' hch c hc
            exact ih p dn none visa io dopt ex c visb hst hdex d t' ht'

/-! ## The call-counting variant computes the same function -/

theorem build_children_gas_eq
    (step_gas : String → Bool → Visited →
      Option (Except RegistryError (TreeNode × Visited)))
    (step : String → Bool → Visited → Except RegistryError (TreeNode × Visited))
    (ex : List String)
    (hstep : ∀ dn dopt vis, step_gas dn dopt vis = some (step dn dopt vis)) :
    ∀ (deps : List (String × String × Bool)) (vis : Visited),
      build_children_gas step_gas deps vis ex
        = some (build_children step deps vis ex) := by
  intro deps
  induction deps with
  | nil => intro vis; simp [build_children, build_children_gas]
  | cons dep rest ih =>
      intro vis
      obtain ⟨dn, dreq, dopt⟩ := dep
      cases hex : matchesAny dn ex with
      | true => simp [build_children, build_children_gas, hex, ih]
      | false =>
          cases hst : step dn dopt vis with
          | error e =>
              simp [build_children, build_children_gas, hex, hstep, hst]
          | ok res =>
              obtain ⟨child, vis1⟩ := res
              cases hrest : build_children step rest vis1 ex with
              | error e =>
                  simp [build_children, build_children_gas, hex, hstep, hst,
                    ih, hrest]
              | ok res2 =>
                  obtain ⟨cs, vis2⟩ := res2
                  simp [build_children, build_children_gas, hex, hstep, hst,
                    ih, hrest]

theorem build_tree_resolved_gas_eq
    (step_gas : String → Bool → Visited →
      Option (Except RegistryError (TreeNode × Visited)))
    (step : String → Bool → Visited → Except RegistryError (TreeNode × Visited))
    (p : LanguageProvider) (root v : String) (pki : Option PackageInfo)
    (vis : Visited) (io iod : Bool) (ex : List String)
    (hstep : ∀ dn dopt vis2, step_gas dn dopt vis2 = some (step dn dopt vis2)) :
    build_tree_resolved_gas step_gas p root v pki vis io iod ex
      = some (build_tree_resolved step p root v pki vis io iod ex) := by
  cases hdeps : get_normal_dependencies p root (some v) io with
  | error e => simp [build_tree_resolved, build_tree_resolved_gas, hdeps]
  | ok deps =>
      have hch := build_children_gas_eq step_gas step ex hstep deps
        (Visited.insert vis root
          ⟨(p.check_fedora_packaging root).is_packaged, some v, iod⟩)
      cases hch2 : build_children step deps
          (Visited.insert vis root
            ⟨(p.check_fedora_packaging root).is_packaged, some v, iod⟩) ex with
      | error e =>
          rw [hch2] at hch
          simp [build_tree_resolved, build_tree_resolved_gas, hdeps, hch, hch2]
      | ok res =>
          obtain ⟨cs, vis2⟩ := res
          rw [hch2] at hch
          simp [build_tree_resolved, build_tree_resolved_gas, hdeps, hch, hch2]

/-- A call-stack allowance of `max_depth + 2 - depth` frames (one for
the current call plus `max_depth + 1 - depth` nested ones) always
suffices: the gas-limited runner never runs out and computes exactly
`build_tree`. -/
theorem build_tree_gas_eq (g : Nat) :
    ∀ (p : LanguageProvider) (root : String) (ver : Option String)
      (vis : Visited) (depth max_depth : Nat) (io iod : Bool)
      (ex : List String),
      0 < g →
      max_depth + 2 - depth ≤ g →
      build_tree_gas g p root ver vis depth max_depth io iod ex
        = some (build_tree p root ver vis depth max_depth io iod ex) := by
  induction g with
  | zero =>
      intro p root ver vis depth max_depth io iod ex hg0 hg
      omega
  | succ g ih =>
      intro p root ver vis depth max_depth io iod ex hg0 hg
      by_cases hdeep : max_depth < depth
      · have hb : max_depth + 1 - depth = 0 := by omega
        simp [build_tree_gas, build_tree, hb, build_tree_budget, hdeep]
      · have hb : max_depth + 1 - depth = (max_depth - depth) + 1 := by omega
        have hstep : ∀ dn dopt vis2,
            build_tree_gas g p dn none vis2 (depth + 1) max_depth io dopt ex
              = some (build_tree p dn none vis2 (depth + 1) max_depth io dopt ex) :=
          fun dn dopt vis2 => ih p dn none vis2 (depth + 1) max_depth io dopt ex
            (by omega) (by omega)
        have hstep' : ∀ dn dopt vis2,
            build_tree_gas g p dn none vis2 (depth + 1) max_depth io dopt ex
              = some (build_tree_budget (max_depth - depth) p dn none vis2
                io dopt ex) := by
          intro dn dopt vis2
          rw [hstep dn dopt vis2]
          unfold build_tree
          have : max_depth + 1 - (depth + 1) = max_depth - depth := by omega
          rw [this]
        unfold build_tree
        rw [hb]
        cases hfind : Visited.find vis root with
        | some entry =>
            simp [build_tree_gas, build_tree_budget, hdeep, hfind]
        | none =>
            cases ver with
            | none =>
                cases hpi : p.fetch_package_info root with
                | error e =>
                    simp [build_tree_gas, build_tree_budget, hdeep, hfind, hpi]
                | ok oinfo =>
                    cases oinfo with
                    | none =>
                        simp [build_tree_gas, build_tree_budget, hdeep, hfind, hpi]
                    | some pi =>
                        have hlhs : build_tree_gas (g + 1) p root none vis depth
                            max_depth io iod ex
                            = build_tree_resolved_gas
                                (fun dn dopt vis2 => build_tree_gas g p dn none vis2
                                  (depth + 1) max_depth io dopt ex)
                                p root pi.latest_version (some pi) vis io iod ex := by
                          simp [build_tree_gas, hdeep, hfind, hpi]
                        have hrhs : build_tree_budget ((max_depth - depth) + 1) p root
                            none vis io iod ex
                            = build_tree_resolved
                                (fun dn dopt vis2 => build_tree_budget
                                  (max_depth - depth) p dn none vis2 io dopt ex)
                                p root pi.latest_version (some pi) vis io iod ex := by
                          simp [build_tree_budget, hfind, hpi]
                        rw [hlhs, hrhs]
                        exact build_tree_resolved_gas_eq _ _ p root pi.latest_version
                          (some pi) vis io iod ex hstep'
            | some v =>
                cases hpi : p.fetch_package_info root with
                | error e =>
                    simp [build_tree_gas, build_tree_budget, hdeep, hfind, hpi]
                | ok oinfo =>
                    have hlhs : build_tree_gas (g + 1) p root (some v) vis depth
                        max_depth io iod ex
                        = build_tree_resolved_gas
                            (fun dn dopt vis2 => build_tree_gas g p dn none vis2
                              (depth + 1) max_depth io dopt ex)
                            p root v oinfo vis io iod ex := by
                      simp [build_tree_gas, hdeep, hfind, hpi]
                    have hrhs : build_tree_budget ((max_depth - depth) + 1) p root
                        (some v) vis io iod ex
                        = build_tree_resolved
                            (fun dn dopt vis2 => build_tree_budget
                              (max_depth - depth) p dn none vis2 io dopt ex)
                            p root v oinfo vis io iod ex := by
                      simp [build_tree_budget, hfind, hpi]
                    rw [hlhs, hrhs]
                    exact build_tree_resolved_gas_eq _ _ p root v oinfo vis io iod
                      ex hstep'

/-! ## Lemmas about the statistics aggregation -/

theorem stats_step_spec (s : TreeStats) (kv : String × VisitedEntry) :
    (stats_step s kv).total = s.total + 1 ∧
    (stats_step s kv).packaged + (stats_step s kv).missing
      = s.packaged + s.missing + 1 ∧
    (stats_step s kv).optional_total
      = s.optional_total + (if kv.2.is_optional then 1 else 0) ∧
    (stats_step s kv).optional_packaged + (stats_step s kv).optional_missing
      = s.optional_packaged + s.optional_missing
        + (if kv.2.is_optional then 1 else 0) := by
  obtain ⟨n, e⟩ := kv
  unfold stats_step
  refine ⟨?_, ?_, ?_, ?_⟩ <;>
    cases hp : e.is_packaged <;> cases ho : e.is_optional <;>
      simp [hp, ho] <;> omega

theorem foldl_stats_spec (l : List (String × VisitedEntry)) :
    ∀ s : TreeStats,
      (l.foldl stats_step s).total = s.total + l.length ∧
      (l.foldl stats_step s).packaged + (l.foldl stats_step s).missing
        = s.packaged + s.missing + l.length ∧
      (l.foldl stats_step s).optional_total
        = s.optional_total + l.countP (fun kv => kv.2.is_optional) ∧
      (l.foldl stats_step s).optional_packaged
          + (l.foldl stats_step s).optional_missing
        = s.optional_packaged + s.optional_missing
          + l.countP (fun kv => kv.2.is_optional) := by
  induction l with
  | nil => intro s; simp
  | cons kv tl ih =>
      intro s
      obtain ⟨h1, h2, h3, h4⟩ := stats_step_spec s kv
      obtain ⟨g1, g2, g3, g4⟩ := ih (stats_step s kv)
      refine ⟨?_, ?_, ?_, ?_⟩ <;>
        simp only [List.foldl_cons, List.countP_cons, List.length_cons,
          g1, g2, g3, g4, h1, h2, h3, h4] <;>
        cases hko : kv.2.is_optional <;> (try simp [hko]) <;> omega

/-! ## Helper lemmas for the claims -/

theorem resolvesTo_unique {p : LanguageProvider} {n : String}
    {ver : Option String} {v1 v2 : String} {pki1 pki2 : Option PackageInfo}
    (h1 : resolvesTo p n ver v1 pki1) (h2 : resolvesTo p n ver v2 pki2) :
    v1 = v2 ∧ pki1 = pki2 := by
  rcases h1 with ⟨hv1, hf1⟩ | ⟨hv1, pi1, hp1, hf1, hl1⟩ <;>
    rcases h2 with ⟨hv2, hf2⟩ | ⟨hv2, pi2, hp2, hf2, hl2⟩
  · rw [hv1] at hv2
    injection hv2 with hv
    rw [hf1] at hf2
    injection hf2 with hf
    exact ⟨hv, hf⟩
  · rw [hv1] at hv2; cases hv2
  · rw [hv1] at hv2; cases hv2
  · rw [hf1] at hf2
    injection hf2 with hf
    injection hf with hpi
    subst hpi
    rw [hp1, hp2, hl1.symm, hl2.symm]
    exact ⟨rfl, rfl⟩

/-- Characterisation of the post-resolution part of a call: the entry
recorded for the package survives to the final visited map, and the
result is an internal node whose children are the expansion of the
fetched dependency list. -/
theorem build_tree_resolved_expansion
    (p : LanguageProvider) (package_name v : String) (pki : Option PackageInfo)
    (visited : Visited) (b depth max_depth : Nat) (io iod : Bool)
    (ex : List String) (t : TreeNode) (vis' : Visited)
    (hb : max_depth + 1 - depth = b + 1)
    (hnv : Visited.find visited package_name = none)
    (hok : build_tree_resolved
        (fun dn dopt vis2 => build_tree_budget b p dn none vis2 io dopt ex)
        p package_name v pki visited io iod ex = .ok (t, vis')) :
    Visited.find vis' package_name
      = some ⟨(p.check_fedora_packaging package_name).is_packaged, some v, iod⟩ ∧
    ∃ deps cs,
      get_normal_dependencies p package_name (some v) io = .ok deps ∧
      build_children
        (fun dn dopt vis2 =>
          build_tree p dn none vis2 (depth + 1) max_depth io dopt ex)
        deps
        (Visited.insert visited package_name
          ⟨(p.check_fedora_packaging package_name).is_packaged, some v, iod⟩) ex
        = .ok (cs, vis') ∧
      t = .node (node_label package_name v (license_str_of pki)
          (optional_marker_str iod) (p.check_fedora_packaging package_name)) cs := by
  obtain ⟨deps, cs, hdeps, hch, ht⟩ :=
    build_tree_resolved_inv _ p package_name v pki visited io iod ex t vis' hok
  have hstepeq : (fun dn dopt vis2 =>
        build_tree p dn none vis2 (depth + 1) max_depth io dopt ex)
      = (fun dn dopt vis2 => build_tree_budget b p dn none vis2 io dopt ex) := by
    funext dn dopt vis2
    unfold build_tree
    rw [show max_depth + 1 - (depth + 1) = b by omega]
  constructor
  · have h1 : Visited.find
        (Visited.insert visited package_name
          ⟨(p.check_fedora_packaging package_name).is_packaged, some v, iod⟩)
        package_name
        = some ⟨(p.check_fedora_packaging package_name).is_packaged, some v, iod⟩ := by
      rw [Visited.insert_of_find_none _ hnv, Visited.find_append_of_none _ hnv,
        Visited.find_singleton_self]
    exact build_children_budget_find_preserve hch h1
  · refine ⟨deps, cs, hdeps, ?_, ht⟩
    rw [hstepeq]
    exact hch

/-! ## The claims -/

/-- Claim C1: a call on a package that is already a key of the visited
map (with the depth guard passed) returns a Leaf reflecting the stored
packaged/not-packaged status (with the cached version when packaged)
and the current edge's optional marker, performs no recursion, and
leaves the visited map unchanged; and over any whole traversal the
visited keys stay pairwise distinct, however many edges reference the
same package. -/
theorem claim_C1 (p : LanguageProvider) (package_name : String)
    (version : Option String) (visited : Visited) (depth max_depth : Nat)
    (io iod : Bool) (ex : List String) (entry : VisitedEntry)
    (hd : depth ≤ max_depth)
    (hv : Visited.find visited package_name = some entry) :
    build_tree p package_name version visited depth max_depth io iod ex
      = .ok (.leaf (visited_leaf_text package_name entry
          (optional_marker_str iod)), visited) ∧
    ∀ (p2 : LanguageProvider) (n2 : String) (v2 : Option String)
      (vis2 : Visited) (d2 m2 : Nat) (io2 iod2 : Bool) (ex2 : List String)
      (t : TreeNode) (vis' : Visited),
      (vis2.map Prod.fst).Nodup →
      build_tree p2 n2 v2 vis2 d2 m2 io2 iod2 ex2 = .ok (t, vis') →
      (vis'.map Prod.fst).Nodup := by
  constructor
  · obtain ⟨b, hb⟩ : ∃ b, max_depth + 1 - depth = b + 1 :=
      ⟨max_depth - depth, by omega⟩
    unfold build_tree
    rw [hb]
    simp [build_tree_budget, hv]
  · intro p2 n2 v2 vis2 d2 m2 io2 iod2 ex2 t vis' hnodup hok
    unfold build_tree at hok
    exact build_tree_budget_nodup hok hnodup

/-- Witness for C1 at a concrete already-visited package. -/
theorem claim_C1_witness :
    ((0 : Nat) ≤ 50 ∧
      Visited.find [("beta", ⟨true, some "2.0.0", false⟩)] "beta"
        = some ⟨true, some "2.0.0", false⟩) ∧
    (build_tree sampleProvider "beta" none
        [("beta", ⟨true, some "2.0.0", false⟩)] 0 50 false true []
      = .ok (.leaf (visited_leaf_text "beta" ⟨true, some "2.0.0", false⟩
          (optional_marker_str true)),
        [("beta", ⟨true, some "2.0.0", false⟩)]) ∧
    ∀ (p2 : LanguageProvider) (n2 : String) (v2 : Option String)
      (vis2 : Visited) (d2 m2 : Nat) (io2 iod2 : Bool) (ex2 : List String)
      (t : TreeNode) (vis' : Visited),
      (vis2.map Prod.fst).Nodup →
      build_tree p2 n2 v2 vis2 d2 m2 io2 iod2 ex2 = .ok (t, vis') →
      (vis'.map Prod.fst).Nodup) :=
  ⟨⟨by decide, rfl⟩,
    claim_C1 sampleProvider "beta" none [("beta", ⟨true, some "2.0.0", false⟩)]
      0 50 false true [] ⟨true, some "2.0.0", false⟩ (by decide) rfl⟩

/-- Claim C2: a call with `depth > max_depth` returns the truncation
Leaf (package name plus inherited optional marker) and records nothing
in the visited map — this holds for every visited map, in particular
one already containing the package, because the depth guard precedes
the visited check; consequently a root traversal's tree has no node at
path-length above `max_depth + 1`, and every node at exactly
`max_depth + 1` is a truncation Leaf (hence childless). -/
theorem claim_C2 (p : LanguageProvider) (package_name : String)
    (version : Option String) (visited : Visited) (depth max_depth : Nat)
    (io iod : Bool) (ex : List String)
    (h : max_depth < depth) :
    build_tree p package_name version visited depth max_depth io iod ex
      = .ok (.leaf (max_depth_text package_name (optional_marker_str iod)),
          visited) ∧
    ∀ (p2 : LanguageProvider) (n2 : String) (v2 : Option String)
      (vis2 : Visited) (m2 : Nat) (io2 iod2 : Bool) (ex2 : List String)
      (t : TreeNode) (vis' : Visited),
      build_tree p2 n2 v2 vis2 0 m2 io2 iod2 ex2 = .ok (t, vis') →
      (∀ d, m2 + 1 < d → nodesAtDepth t d = []) ∧
      (∀ t' ∈ nodesAtDepth t (m2 + 1), ∃ nm mk, t' = .leaf (max_depth_text nm mk)) := by
  constructor
  · have hb : max_depth + 1 - depth = 0 := by omega
    unfold build_tree
    rw [hb]
    simp [build_tree_budget]
  · intro p2 n2 v2 vis2 m2 io2 iod2 ex2 t vis' hok
    unfold build_tree at hok
    rw [show m2 + 1 - 0 = m2 + 1 from rfl] at hok
    exact build_tree_budget_depth_bound (m2 + 1) p2 n2 v2 vis2 io2 iod2 ex2
      t vis' hok

/-- Witness for C2 at `depth = 1 > max_depth = 0`, on a visited map
already containing the package. -/
theorem claim_C2_witness :
    ((0 : Nat) < 1) ∧
    (build_tree sampleProvider "beta" none
        [("beta", ⟨true, some "2.0.0", false⟩)] 1 0 false true []
      = .ok (.leaf (max_depth_text "beta" (optional_marker_str true)),
          [("beta", ⟨true, some "2.0.0", false⟩)]) ∧
    ∀ (p2 : LanguageProvider) (n2 : String) (v2 : Option String)
      (vis2 : Visited) (m2 : Nat) (io2 iod2 : Bool) (ex2 : List String)
      (t : TreeNode) (vis' : Visited),
      build_tree p2 n2 v2 vis2 0 m2 io2 iod2 ex2 = .ok (t, vis') →
      (∀ d, m2 + 1 < d → nodesAtDepth t d = []) ∧
      (∀ t' ∈ nodesAtDepth t (m2 + 1), ∃ nm mk, t' = .leaf (max_depth_text nm mk))) :=
  ⟨by decide,
    claim_C2 sampleProvider "beta" none [("beta", ⟨true, some "2.0.0", false⟩)]
      1 0 false true [] (by decide)⟩

/-- Claim C3: a non-short-circuited call that resolves a version
queries the distribution and records
`visited[package_name] = (status.is_packaged, version, is_optional_dep)`
unconditionally — the entry is present in the final visited map — and
expands the dependency list into children regardless of whether the
package is packaged: the result is always an internal node whose
children are the expansion of the fetched dependency list, for any
packaging status the distribution reports. -/
theorem claim_C3 (p : LanguageProvider) (package_name : String)
    (version : Option String) (visited : Visited) (depth max_depth : Nat)
    (io iod : Bool) (ex : List String) (v : String) (pki : Option PackageInfo)
    (hd : depth ≤ max_depth)
    (hnv : Visited.find visited package_name = none)
    (hres : resolvesTo p package_name version v pki) :
    ∀ t vis',
      build_tree p package_name version visited depth max_depth io iod ex
        = .ok (t, vis') →
      Visited.find vis' package_name
        = some ⟨(p.check_fedora_packaging package_name).is_packaged, some v, iod⟩ ∧
      ∃ deps cs,
        get_normal_dependencies p package_name (some v) io = .ok deps ∧
        build_children
          (fun dn dopt vis2 =>
            build_tree p dn none vis2 (depth + 1) max_depth io dopt ex)
          deps
          (Visited.insert visited package_name
            ⟨(p.check_fedora_packaging package_name).is_packaged, some v, iod⟩) ex
          = .ok (cs, vis') ∧
        t = .node (node_label package_name v (license_str_of pki)
            (optional_marker_str iod) (p.check_fedora_packaging package_name)) cs := by
  intro t vis' hok
  obtain ⟨b, hb⟩ : ∃ b, max_depth + 1 - depth = b + 1 :=
    ⟨max_depth - depth, by omega⟩
  unfold build_tree at hok
  rw [hb] at hok
  rcases build_tree_budget_succ_inv b p package_name version visited io iod ex
      t vis' hok with
    ⟨entry, hfind, -, -⟩ | ⟨-, hver, hpinone, -, -⟩ | ⟨v2, pki2, -, hres2, hresolved⟩
  · rw [hnv] at hfind; cases hfind
  · rcases hres with ⟨hv1, -⟩ | ⟨-, pi, -, hpi, -⟩
    · rw [hver] at hv1; cases hv1
    · rw [hpi] at hpinone; cases hpinone
  · obtain ⟨hveq, hpeq⟩ := resolvesTo_unique hres2 hres
    subst hveq hpeq
    exact build_tree_resolved_expansion p package_name v2 pki2 visited b depth
      max_depth io iod ex t vis' hb hnv hresolved

/-- Witness for C3: the sample root `beta` resolves to `2.0.0`, is
packaged, and its (empty) dependency list is still expanded. -/
theorem claim_C3_witness :
    ((0 : Nat) ≤ 50 ∧
      Visited.find [] "beta" = none ∧
      resolvesTo sampleProvider "beta" none "2.0.0"
        (some ⟨"beta", "2.0.0", none, none, none, none⟩)) ∧
    ∀ t vis',
      build_tree sampleProvider "beta" none [] 0 50 false false []
        = .ok (t, vis') →
      Visited.find vis' "beta"
        = some ⟨(sampleProvider.check_fedora_packaging "beta").is_packaged,
            some "2.0.0", false⟩ ∧
      ∃ deps cs,
        get_normal_dependencies sampleProvider "beta" (some "2.0.0") false
          = .ok deps ∧
        build_children
          (fun dn dopt vis2 =>
            build_tree sampleProvider dn none vis2 (0 + 1) 50 false dopt [])
          deps
          (Visited.insert [] "beta"
            ⟨(sampleProvider.check_fedora_packaging "beta").is_packaged,
              some "2.0.0", false⟩) []
          = .ok (cs, vis') ∧
        t = .node (node_label "beta" "2.0.0"
            (license_str_of (some ⟨"beta", "2.0.0", none, none, none, none⟩))
            (optional_marker_str false)
            (sampleProvider.check_fedora_packaging "beta")) cs :=
  ⟨⟨by decide, rfl, Or.inr ⟨rfl, ⟨"beta", "2.0.0", none, none, none, none⟩,
      rfl, rfl, rfl⟩⟩,
    claim_C3 sampleProvider "beta" none [] 0 50 false false [] "2.0.0"
      (some ⟨"beta", "2.0.0", none, none, none, none⟩) (by decide) rfl
      (Or.inr ⟨rfl, ⟨"beta", "2.0.0", none, none, none, none⟩, rfl, rfl, rfl⟩)⟩

/-- Claim C4: the statistics aggregation satisfies the conservation
laws for every visited map: `total` equals the number of entries,
`packaged + missing = total`,
`optional_packaged + optional_missing = optional_total`, and
`optional_total ≤ total`. -/
theorem claim_C4 (visited : Visited) :
    (compute_stats_from_visited visited).total = visited.length ∧
    (compute_stats_from_visited visited).packaged
        + (compute_stats_from_visited visited).missing
      = (compute_stats_from_visited visited).total ∧
    (compute_stats_from_visited visited).optional_packaged
        + (compute_stats_from_visited visited).optional_missing
      = (compute_stats_from_visited visited).optional_total ∧
    (compute_stats_from_visited visited).optional_total
      ≤ (compute_stats_from_visited visited).total := by
  obtain ⟨h1, h2, h3, h4⟩ := foldl_stats_spec visited TreeStats.empty
  simp only [show TreeStats.empty.total = 0 from rfl,
    show TreeStats.empty.packaged = 0 from rfl,
    show TreeStats.empty.missing = 0 from rfl,
    show TreeStats.empty.optional_total = 0 from rfl,
    show TreeStats.empty.optional_packaged = 0 from rfl,
    show TreeStats.empty.optional_missing = 0 from rfl, Nat.zero_add] at h1 h2 h3 h4
  have hcount : visited.countP (fun kv => kv.2.is_optional) ≤ visited.length :=
    List.countP_le_length _
  unfold compute_stats_from_visited
  refine ⟨?_, ?_, ?_, ?_⟩ <;> omega

/-- Claim C5: with no explicit version, a registry "not found" records
`visited[package_name] = (False, None, is_optional_dep)`, returns the
"not found" Leaf and performs no recursion; and the `None`-version
discipline (a stored `None` version means the registry reported the
package missing, recorded as not packaged) is preserved by every
traversal. -/
theorem claim_C5 (p : LanguageProvider) (package_name : String)
    (version : Option String) (visited : Visited) (depth max_depth : Nat)
    (io iod : Bool) (ex : List String)
    (hd : depth ≤ max_depth)
    (hnv : Visited.find visited package_name = none)
    (hver : version = none)
    (hpi : p.fetch_package_info package_name = .ok none) :
    build_tree p package_name version visited depth max_depth io iod ex
      = .ok (.leaf (not_found_text package_name (optional_marker_str iod)
          p.registry_name),
        Visited.insert visited package_name ⟨false, none, iod⟩) ∧
    ∀ (p2 : LanguageProvider) (n2 : String) (v2 : Option String)
      (vis2 : Visited) (d2 m2 : Nat) (io2 iod2 : Bool) (ex2 : List String)
      (t : TreeNode) (vis' : Visited),
      NoneVersionInv p2 vis2 →
      build_tree p2 n2 v2 vis2 d2 m2 io2 iod2 ex2 = .ok (t, vis') →
      NoneVersionInv p2 vis' := by
  constructor
  · subst hver
    obtain ⟨b, hb⟩ : ∃ b, max_depth + 1 - depth = b + 1 :=
      ⟨max_depth - depth, by omega⟩
    unfold build_tree
    rw [hb]
    simp [build_tree_budget, hnv, hpi]
  · intro p2 n2 v2 vis2 d2 m2 io2 iod2 ex2 t vis' hinv hok
    unfold build_tree at hok
    exact build_tree_budget_none_inv hok hinv

/-- Witness for C5: `delta` is not in the sample registry. -/
theorem claim_C5_witness :
    ((0 : Nat) ≤ 50 ∧ Visited.find [] "delta" = none ∧
      (none : Option String) = none ∧
      sampleProvider.fetch_package_info "delta" = .ok none) ∧
    (build_tree sampleProvider "delta" none [] 0 50 false false []
      = .ok (.leaf (not_found_text "delta" (optional_marker_str false)
          sampleProvider.registry_name),
        Visited.insert [] "delta" ⟨false, none, false⟩) ∧
    ∀ (p2 : LanguageProvider) (n2 : String) (v2 : Option String)
      (vis2 : Visited) (d2 m2 : Nat) (io2 iod2 : Bool) (ex2 : List String)
      (t : TreeNode) (vis' : Visited),
      NoneVersionInv p2 vis2 →
      build_tree p2 n2 v2 vis2 d2 m2 io2 iod2 ex2 = .ok (t, vis') →
      NoneVersionInv p2 vis') :=
  ⟨⟨by decide, rfl, rfl, rfl⟩,
    claim_C5 sampleProvider "delta" none [] 0 50 false false [] (by decide)
      rfl rfl rfl⟩

/-- Claim C6: under shell-glob (`fnmatch`) semantics, a dependency name
matching any exclude pattern is pruned before any visit: every name
matching some pattern (and not already present) is absent from the
final visited map — however many paths reach it — and every node
anywhere in the returned tree is the result of a (sub)call on a
non-matching name. -/
theorem claim_C6 (p : LanguageProvider) (package_name : String)
    (version : Option String) (visited : Visited) (depth max_depth : Nat)
    (io iod : Bool) (ex : List String) (t : TreeNode) (vis' : Visited)
    (hroot : matchesAny package_name ex = false)
    (hok : build_tree p package_name version visited depth max_depth io iod ex
      = .ok (t, vis')) :
    (∀ n, matchesAny n ex = true → Visited.find visited n = none →
      Visited.find vis' n = none) ∧
    ∀ d t', t' ∈ nodesAtDepth t d →
      ∃ b2 nm ver2 visa iod2 visb, matchesAny nm ex = false ∧
        build_tree_budget b2 p nm ver2 visa io iod2 ex = .ok (t', visb) := by
  unfold build_tree at hok
  constructor
  · intro n hn hvn
    exact build_tree_budget_excluded_absent hok hroot hn hvn
  · exact build_tree_budget_subtree_provenance (max_depth + 1 - depth) p
      package_name version visited io iod ex t vis' hok hroot

/-- Witness for C6: excluding `windows*` prunes the `windows-sys` edge
of `alpha` entirely (it is reachable from `alpha` and appears without
the pattern, compare the C7 witness). -/
theorem claim_C6_witness :
    (matchesAny "alpha" ["windows*"] = false ∧
      build_tree sampleProvider "alpha" none [] 0 50 false false ["windows*"]
        = .ok (.node
            "[bold]alpha[/bold] [dim]v1.0.0[/dim] [magenta](MIT)[/magenta] • [red]✗ not packaged[/red]"
            [.node
              "[bold]beta[/bold] [dim]v2.0.0[/dim] • [green]✓ packaged[/green] [dim](2.0.0)[/dim] [dim cyan][rust-beta][/dim cyan]"
              [],
             .leaf "[dim]alpha[/dim] • [red]✗[/red] [dim](already visited)[/dim]"],
          [("alpha", ⟨false, some "1.0.0", false⟩),
           ("beta", ⟨true, some "2.0.0", false⟩)])) ∧
    ((∀ n, matchesAny n ["windows*"] = true → Visited.find [] n = none →
      Visited.find
        [("alpha", ⟨false, some "1.0.0", false⟩),
         ("beta", ⟨true, some "2.0.0", false⟩)] n = none) ∧
    ∀ d t', t' ∈ nodesAtDepth (.node
        "[bold]alpha[/bold] [dim]v1.0.0[/dim] [magenta](MIT)[/magenta] • [red]✗ not packaged[/red]"
        [.node
          "[bold]beta[/bold] [dim]v2.0.0[/dim] • [green]✓ packaged[/green] [dim](2.0.0)[/dim] [dim cyan][rust-beta][/dim cyan]"
          [],
         .leaf "[dim]alpha[/dim] • [red]✗[/red] [dim](already visited)[/dim]"]) d →
      ∃ b2 nm ver2 visa iod2 visb, matchesAny nm ["windows*"] = false ∧
        build_tree_budget b2 sampleProvider nm ver2 visa false iod2 ["windows*"]
          = .ok (t', visb)) :=
  ⟨⟨by decide, rfl⟩,
    claim_C6 sampleProvider "alpha" none [] 0 50 false false ["windows*"]
      (.node
        "[bold]alpha[/bold] [dim]v1.0.0[/dim] [magenta](MIT)[/magenta] • [red]✗ not packaged[/red]"
        [.node
          "[bold]beta[/bold] [dim]v2.0.0[/dim] • [green]✓ packaged[/green] [dim](2.0.0)[/dim] [dim cyan][rust-beta][/dim cyan]"
          [],
         .leaf "[dim]alpha[/dim] • [red]✗[/red] [dim](already visited)[/dim]"])
      [("alpha", ⟨false, some "1.0.0", false⟩),
       ("beta", ⟨true, some "2.0.0", false⟩)]
      (by decide) rfl⟩

/-- Claim C7: the recursive call for a dependency edge receives the
edge's own declared optional flag: a required (non-optional) first
dependency of a package that was itself reached optionally
(`is_optional_dep = true`) is recorded in the visited map with
`is_optional = false` — optionality is per-edge, not inherited. -/
theorem claim_C7 (p : LanguageProvider) (package_name : String)
    (visited : Visited) (depth max_depth : Nat) (io : Bool)
    (ex : List String) (vA : String) (pki : Option PackageInfo)
    (B r : String) (rest : List (String × String × Bool))
    (hd : depth < max_depth)
    (hnv : Visited.find visited package_name = none)
    (hpi : p.fetch_package_info package_name = .ok pki)
    (hdeps : get_normal_dependencies p package_name (some vA) io
      = .ok ((B, r, false) :: rest))
    (hBex : matchesAny B ex = false)
    (hBnv : Visited.find visited B = none)
    (hBA : B ≠ package_name) :
    ∀ t vis',
      build_tree p package_name (some vA) visited depth max_depth io true ex
        = .ok (t, vis') →
      ∃ e, Visited.find vis' B = some e ∧ e.is_optional = false := by
  intro t vis' hok
  obtain ⟨b2, hb2⟩ : ∃ b2, max_depth - depth = b2 + 1 :=
    ⟨max_depth - depth - 1, by omega⟩
  have hb1 : max_depth + 1 - depth = (b2 + 1) + 1 := by omega
  unfold build_tree at hok
  rw [hb1] at hok
  rcases build_tree_budget_succ_inv (b2 + 1) p package_name (some vA) visited
      io true ex t vis' hok with
    ⟨entry, hfind, -, -⟩ | ⟨-, hver, -, -, -⟩ | ⟨v2, pki2, -, hres2, hresolved⟩
  · rw [hnv] at hfind; cases hfind
  · cases hver
  · have hres1 : resolvesTo p package_name (some vA) vA pki := Or.inl ⟨rfl, hpi⟩
    obtain ⟨hveq, hpeq⟩ := resolvesTo_unique hres2 hres1
    subst hveq hpeq
    obtain ⟨deps, cs, hdeps2, hch, -⟩ :=
      build_tree_resolved_inv _ p package_name v2 pki2 visited io true ex
        t vis' hresolved
    rw [hdeps] at hdeps2
    injection hdeps2 with hdeq
    subst hdeq
    have hpnB : package_name ≠ B := fun h => hBA h.symm
    have hfindB : Visited.find
        (Visited.insert visited package_name
          ⟨(p.check_fedora_packaging package_name).is_packaged, some v2, true⟩)
        B = none := by
      rw [Visited.insert_of_find_none _ hnv, Visited.find_append_of_none _ hBnv]
      simp [Visited.find, hpnB]
    cases hstB : build_tree_budget (b2 + 1) p B none
        (Visited.insert visited package_name
          ⟨(p.check_fedora_packaging package_name).is_packaged, some v2, true⟩)
        io false ex with
    | error e =>
        have heqc : build_children
            (fun dn dopt vis2 => build_tree_budget (b2 + 1) p dn none vis2
              io dopt ex)
            ((B, r, false) :: rest)
            (Visited.insert visited package_name
              ⟨(p.check_fedora_packaging package_name).is_packaged, some v2, true⟩)
            ex = .error e := by
          simp [build_children, hBex, hstB]
        rw [heqc] at hch
        cases hch
    | ok resB =>
        obtain ⟨childB, visB⟩ := resB
        obtain ⟨e, he, heopt⟩ := build_tree_budget_records_root hstB hfindB
        cases hrest : build_children
            (fun dn dopt vis2 => build_tree_budget (b2 + 1) p dn none vis2
              io dopt ex)
            rest visB ex with
        | error e2 =>
            have heqc : build_children
                (fun dn dopt vis2 => build_tree_budget (b2 + 1) p dn none vis2
                  io dopt ex)
                ((B, r, false) :: rest)
                (Visited.insert visited package_name
                  ⟨(p.check_fedora_packaging package_name).is_packaged,
                    some v2, true⟩)
                ex = .error e2 := by
              simp [build_children, hBex, hstB, hrest]
            rw [heqc] at hch
            cases hch
        | ok res2 =>
            obtain ⟨cs2, vis2⟩ := res2
            have heqc : build_children
                (fun dn dopt vis2 => build_tree_budget (b2 + 1) p dn none vis2
                  io dopt ex)
                ((B, r, false) :: rest)
                (Visited.insert visited package_name
                  ⟨(p.check_fedora_packaging package_name).is_packaged,
                    some v2, true⟩)
                ex = .ok (childB :: cs2, vis2) := by
              simp [build_children, hBex, hstB, hrest]
            rw [heqc] at hch
            simp only [Except.ok.injEq, Prod.mk.injEq] at hch
            obtain ⟨-, hveq2⟩ := hch
            subst hveq2
            exact ⟨e, build_children_budget_find_preserve hrest he, heopt⟩

/-- Witness for C7: `alpha` is reached via an optional edge, its first
dependency edge to `beta` is required, and `beta` ends up recorded
non-optional. -/
theorem claim_C7_witness :
    ((0 : Nat) < 50 ∧
      Visited.find [] "alpha" = none ∧
      sampleProvider.fetch_package_info "alpha"
        = .ok (some ⟨"alpha", "1.0.0", none, none, none, some "MIT"⟩) ∧
      get_normal_dependencies sampleProvider "alpha" (some "1.0.0") false
        = .ok (("beta", "^2", false)
            :: [("windows-sys", "^0.5", false), ("alpha", "^1", false)]) ∧
      matchesAny "beta" [] = false ∧
      Visited.find [] "beta" = none ∧
      "beta" ≠ "alpha") ∧
    ∀ t vis',
      build_tree sampleProvider "alpha" (some "1.0.0") [] 0 50 false true []
        = .ok (t, vis') →
      ∃ e, Visited.find vis' "beta" = some e ∧ e.is_optional = false :=
  ⟨⟨by decide, rfl, rfl, rfl, by decide, rfl, by decide⟩,
    claim_C7 sampleProvider "alpha" [] 0 50 false [] "1.0.0"
      (some ⟨"alpha", "1.0.0", none, none, none, some "MIT"⟩) "beta" "^2"
      [("windows-sys", "^0.5", false), ("alpha", "^1", false)]
      (by decide) rfl rfl rfl (by decide) rfl (by decide)⟩

/-- Counterexample to claim C8 as stated: a server error (HTTP 500) on
the crates.io dependencies endpoint is converted by
`RustProvider.fetch_dependencies` into an empty dependency list (and
no exception), not propagated. -/
theorem claim_C8_counterexample :
    rust_fetch_dependencies ⟨500, [⟨"serde", "^1.0", false, "normal"⟩]⟩ = [] := by
  rfl

/-- Claim C8 (amended): a metadata lookup whose HTTP status is neither
200 nor 404 raises (`rust_fetch_package_info` returns an error, never a
"not found" or parsed result), and such a registry error propagates out
of `build_tree` uncaught, aborting the whole traversal; however a
non-200 status when fetching a version's dependency list is converted
by the registry client into an empty dependency list rather than an
error. -/
theorem claim_C8 (package_name : String) (r : CratesInfoResponse)
    (rd : CratesDepsResponse) (p : LanguageProvider) (root : String)
    (ver : Option String) (vis : Visited) (depth max_depth : Nat)
    (io iod : Bool) (ex : List String) (msg : RegistryError)
    (h200 : r.status_code ≠ 200) (h404 : r.status_code ≠ 404)
    (hd : depth ≤ max_depth)
    (hnv : Visited.find vis root = none)
    (herr : p.fetch_package_info root = .error msg)
    (hrd : rd.status_code ≠ 200) :
    (∃ emsg, rust_fetch_package_info package_name r = .error emsg) ∧
    build_tree p root ver vis depth max_depth io iod ex = .error msg ∧
    rust_fetch_dependencies rd = [] := by
  refine ⟨?_, ?_, ?_⟩
  · refine ⟨s!"Failed to fetch metadata for crate {package_name}: "
      ++ toString r.status_code, ?_⟩
    simp [rust_fetch_package_info, h200, h404]
  · obtain ⟨b, hb⟩ : ∃ b, max_depth + 1 - depth = b + 1 :=
      ⟨max_depth - depth, by omega⟩
    unfold build_tree
    rw [hb]
    cases ver with
    | none => simp [build_tree_budget, hnv, herr]
    | some v => simp [build_tree_budget, hnv, herr]
  · simp [rust_fetch_dependencies, hrd]

/-- Witness for C8 (amended) with a 503 on both endpoints and a
provider whose registry raises. -/
theorem claim_C8_witness :
    ((503 : Nat) ≠ 200 ∧ (503 : Nat) ≠ 404 ∧ (0 : Nat) ≤ 50 ∧
      Visited.find [] "alpha" = none ∧
      failingProvider.fetch_package_info "alpha"
        = .error ("Failed to fetch metadata for crate alpha: " ++ toString 503) ∧
      (503 : Nat) ≠ 200) ∧
    ((∃ emsg, rust_fetch_package_info "alpha"
        ⟨503, ⟨"alpha", "1.0.0", none, none, none, none⟩, []⟩ = .error emsg) ∧
    build_tree failingProvider "alpha" none [] 0 50 false false []
      = .error ("Failed to fetch metadata for crate alpha: " ++ toString 503) ∧
    rust_fetch_dependencies ⟨503, []⟩ = []) :=
  ⟨⟨by decide, by decide, by decide, rfl, rfl, by decide⟩,
    claim_C8 "alpha" ⟨503, ⟨"alpha", "1.0.0", none, none, none, none⟩, []⟩
      ⟨503, []⟩ failingProvider "alpha" none [] 0 50 false false []
      ("Failed to fetch metadata for crate alpha: " ++ toString 503)
      (by decide) (by decide) (by decide) rfl rfl (by decide)⟩

/-- Claim C9: the claim (and the repository's own tests and consumers)
require `PackageInfo` to carry an optional `license` field, but the
class body of `PackageInfo` in `src/woolly/languages/base.py` does not
declare the attribute that `check.py` line 170 reads — the code
contradicts `tests/unit/test_languages/test_base.py`, which asserts
`PackageInfo(name="test", latest_version="1.0.0", license="MIT").license
== "MIT"`. -/
theorem claim_C9 :
    packageInfoLicenseAttr ∉ packageInfoFieldsBase ∧
    packageInfoFieldsBase
      = ["name", "latest_version", "description", "homepage", "repository"] := by
  constructor
  · decide
  · rfl

/-- Claim C10: `build_tree` terminates on every input: each recursive
call passes `depth + 1` with `max_depth` unchanged, and a call with
`depth > max_depth` returns without recursing, so the recursion depth
is bounded by `max_depth + 1` nested calls — a call-stack allowance of
`max_depth + 2 - depth` frames (for the root call at depth 0:
one frame plus `max_depth + 1` nested ones) never runs out and
computes exactly the total function `build_tree`. -/
theorem claim_C10 (g : Nat) (p : LanguageProvider) (root : String)
    (ver : Option String) (vis : Visited) (depth max_depth : Nat)
    (io iod : Bool) (ex : List String)
    (hg0 : 0 < g) (hg : max_depth + 2 - depth ≤ g) :
    build_tree_gas g p root ver vis depth max_depth io iod ex
      = some (build_tree p root ver vis depth max_depth io iod ex) :=
  build_tree_gas_eq g p root ver vis depth max_depth io iod ex hg0 hg

/-- Witness for C10: 52 stack frames suffice for a root call with
`max_depth = 50`, and the run indeed completes. -/
theorem claim_C10_witness :
    ((0 : Nat) < 52 ∧ (50 : Nat) + 2 - 0 ≤ 52) ∧
    build_tree_gas 52 sampleProvider "alpha" none [] 0 50 false false []
      = some (build_tree sampleProvider "alpha" none [] 0 50 false false []) :=
  ⟨⟨by decide, by decide⟩,
    claim_C10 52 sampleProvider "alpha" none [] 0 50 false false []
      (by decide) (by decide)⟩

end Woolly
